import Mathlib

/-!
# pqConsole.cpp: the Prolog-facing glue of the swipl-win console

A shallow embedding of `src/pqConsole.cpp`.

* Object addresses (`QObject*`, `ConsoleEdit*`) are natural numbers.
* The Qt object tree is a finite forest of addresses (`QObject`); everything
  else an object carries (dynamic class, window attributes, history,
  properties) lives in `World`, keyed by address.
* Prolog terms are `PlTerm`; the bindings made by a foreign predicate are
  recorded in a `Frame`.
* Methods of `ConsoleEdit`, `Preferences` and `Swipl_IO` are declared in
  headers that are not part of `src/`; they are taken as parameters or
  modelled as stated at each definition.
-/

namespace pqConsole

/-! ## Prolog terms (SWI-Prolog 7 foreign interface) -/

/-- Prolog terms as seen through `term_t`: `var` is an unbound variable,
`float` carries the bit pattern of the double, `nil` is `[]`, `cons` is the
list cell `[Head|Tail]`, `stream` is the blob wrapping the stream with the
given index, and `compound` is any other compound term. -/
inductive PlTerm where
  | var (id : Nat)
  | integer (i : Int)
  | float (bits : Nat)
  | atom (name : String)
  | string (text : String)
  | nil
  | cons (head tail : PlTerm)
  | stream (index : Nat)
  | compound (name : String) (args : List PlTerm)

/-- Result of `PL_term_type` as far as this file switches on it. -/
inductive PlType where
  | PL_VARIABLE
  | PL_INTEGER
  | PL_FLOAT
  | PL_ATOM
  | PL_STRING
  | PL_NIL
  | PL_LIST_PAIR
  | PL_BLOB
  | PL_TERM
deriving DecidableEq, Repr

/-- Exceptions thrown through the C++ interface. -/
inductive PlException where
  | type_error (expected : String) (culprit : PlTerm)
  | domain_error (expected : String) (culprit : PlTerm)
  | message (text : String)

/-- Dynamic type of a term: `PlTerm::type()`. -/
def PlTerm.type : PlTerm → PlType
  | .var _ => .PL_VARIABLE
  | .integer _ => .PL_INTEGER
  | .float _ => .PL_FLOAT
  | .atom _ => .PL_ATOM
  | .string _ => .PL_STRING
  | .nil => .PL_NIL
  | .cons _ _ => .PL_LIST_PAIR
  | .stream _ => .PL_BLOB
  | .compound _ _ => .PL_TERM

/-- Prolog list with the given elements and tail. -/
def PlTerm.listWithTail : List PlTerm → PlTerm → PlTerm
  | [], tl => tl
  | x :: xs, tl => PlTerm.cons x (PlTerm.listWithTail xs tl)

/-- Proper (closed) Prolog list. -/
def PlTerm.list (xs : List PlTerm) : PlTerm := PlTerm.listWithTail xs .nil

mutual
/-- A number above the id of every variable of the term. -/
def PlTerm.varBound : PlTerm → Nat
  | .var v => v + 1
  | .cons h t => max (PlTerm.varBound h) (PlTerm.varBound t)
  | .compound _ args => PlTerm.varBoundList args
  | _ => 0
/-- A number above the id of every variable of the terms. -/
def PlTerm.varBoundList : List PlTerm → Nat
  | [] => 0
  | t :: ts => max (PlTerm.varBound t) (PlTerm.varBoundList ts)
end

/-- Bindings made so far by the running foreign predicate, newest first,
and the next unused variable id. -/
structure Frame where
  bindings : List (Nat × PlTerm)
  fresh : Nat

/-- Frame at the entry of a foreign predicate called with the arguments
`args`: the arguments are given as they stand at the call, so nothing is
bound yet and every variable id from `varBoundList args` on is unused. -/
def Frame.initial (args : List PlTerm) : Frame :=
  { bindings := [], fresh := PlTerm.varBoundList args }

/-- Value bound to a variable, if any. -/
def Frame.lookup (σ : Frame) (v : Nat) : Option PlTerm :=
  (σ.bindings.find? (fun b => b.1 == v)).map Prod.snd

/-- Follow variable bindings until an unbound variable or a non-variable
term is reached; `fuel` bounds the length of the chain. -/
def Frame.deref (σ : Frame) : Nat → PlTerm → PlTerm
  | fuel + 1, .var v =>
    match σ.lookup v with
    | some t => Frame.deref σ fuel t
    | none => .var v
  | _, t => t

/-- Dereference with fuel for the longest possible chain. -/
def Frame.walk (σ : Frame) (t : PlTerm) : PlTerm :=
  σ.deref (σ.bindings.length + 1) t

/-- Bind variable `v` to `t`. -/
def Frame.bind (σ : Frame) (v : Nat) (t : PlTerm) : Frame :=
  { σ with bindings := (v, t) :: σ.bindings }

/-- Equality of two atomic terms (atom, string, integer, float, nil, blob). -/
def PlTerm.sameAtomic : PlTerm → PlTerm → Bool
  | .integer a, .integer b => a == b
  | .float a, .float b => a == b
  | .atom a, .atom b => a == b
  | .string a, .string b => a == b
  | .nil, .nil => true
  | .stream a, .stream b => a == b
  | _, _ => false

/-- Unification of term `t` with an atomic value: `PL_unify_atom`,
`PL_unify_integer`, `PL_unify_nil`, `PL_unify_stream`. An unbound variable is
bound, anything else must be the same atomic term. -/
def Frame.unifyAtomic (σ : Frame) (t : PlTerm) (value : PlTerm) : Bool × Frame :=
  match σ.walk t with
  | .var v => (true, σ.bind v value)
  | t1 => (t1.sameAtomic value, σ)

/-- Text of a term as `PL_get_wchars(CVT_ALL|CVT_WRITEQ)` yields it: atoms
and strings give their text, integers their decimal form; for any other
term the text is what `write` prints, taken from the parameter `writeq`. -/
def t2w (writeq : PlTerm → String) (σ : Frame) (t : PlTerm) : String :=
  match σ.walk t with
  | .atom s => s
  | .string s => s
  | .integer i => toString i
  | t1 => writeq t1

/-- Name and arity: `PL_get_name_arity`, succeeds for atoms and compounds. -/
def PlTerm.nameArity : PlTerm → Option (String × Nat)
  | .atom s => some (s, 0)
  | .cons _ _ => some ("[|]", 2)
  | .compound f args => some (f, args.length)
  | _ => none

/-- Arity as `PlTerm::arity()` reports it, or the type error it throws. -/
def PlTerm.arity (σ : Frame) (t : PlTerm) : Except PlException Nat :=
  match (σ.walk t).nameArity with
  | some na => .ok na.2
  | none => .error (.type_error "compound" t)

/-- Name as `PlTerm::name()` reports it, or the type error it throws. -/
def PlTerm.name (σ : Frame) (t : PlTerm) : Except PlException String :=
  match (σ.walk t).nameArity with
  | some na => .ok na.1
  | none => .error (.type_error "compound" t)

/-- Argument access `t[i]` (1-based): `PlTerm::operator[]`. -/
def PlTerm.arg (σ : Frame) (t : PlTerm) (i : Nat) : Except PlException PlTerm :=
  match σ.walk t with
  | .compound _ args =>
    match i, args.get? (i - 1) with
    | 0, _ => .error (.domain_error "not_less_than_zero" (.integer 0))
    | _, some a => .ok a
    | _, none => .error (.domain_error "arity" (.integer i))
  | .cons h tl =>
    match i with
    | 0 => .error (.domain_error "not_less_than_zero" (.integer 0))
    | 1 => .ok h
    | 2 => .ok tl
    | _ => .error (.domain_error "arity" (.integer i))
  | _ => .error (.type_error "compound" t)

/-- Whether `i` is in the range of a signed C integer of `bits` bits. -/
def fitsSigned (bits : Nat) (i : Int) : Bool :=
  decide (-(2 : Int) ^ (bits - 1) ≤ i) && decide (i < (2 : Int) ^ (bits - 1))

/-- Conversion `long(t)` / `int(t)`: `PL_get_long` / `PL_get_integer` on an
integer that fits, type error otherwise. -/
def PlTerm.toInteger (σ : Frame) (bits : Nat) (t : PlTerm) : Except PlException Int :=
  match σ.walk t with
  | .integer i => if fitsSigned bits i then .ok i else .error (.type_error "integer" t)
  | _ => .error (.type_error "integer" t)

/-- State of a `PlTail`: the reference to the not yet visited tail.
The loops `while (l.next(t))` of this file are written by recursion on that
tail: `PlTail::next` yields the head of a list cell and moves to its tail,
ends the loop at `[]`, and throws a type error on anything else (an
unbound or improper tail). -/
structure PlTail where
  ref : PlTerm

/-- Constructor `PlTail(l)`: `l` must be unbound or a list. -/
def PlTail.new (σ : Frame) (l : PlTerm) : Except PlException PlTail :=
  match σ.walk l with
  | .var v => .ok ⟨.var v⟩
  | .nil => .ok ⟨.nil⟩
  | .cons h t => .ok ⟨.cons h t⟩
  | _ => .error (.type_error "list" l)

/-- Extension `PlTail::append(e)` with an atomic `e`: `PL_unify_list`
followed by `PL_unify` of the head. An unbound tail is bound to
`[e|Fresh]`; a list cell is stepped over and its head unified with `e`;
anything else fails and leaves the tail where it was. -/
def PlTail.append (σ : Frame) (l : PlTail) (e : PlTerm) : Bool × PlTail × Frame :=
  match σ.walk l.ref with
  | .var v =>
    let tl := PlTerm.var σ.fresh
    (true, ⟨tl⟩, { bindings := (v, PlTerm.cons e tl) :: σ.bindings, fresh := σ.fresh + 1 })
  | .cons h t =>
    let r := σ.unifyAtomic h e
    (r.1, ⟨t⟩, r.2)
  | _ => (false, l, σ)

/-- Closing `PlTail::close()`: `PL_unify_nil` on the tail. -/
def PlTail.close (σ : Frame) (l : PlTail) : Bool × Frame :=
  σ.unifyAtomic l.ref .nil

/-- Substitute the bindings of the frame throughout a term, `fuel` levels deep. -/
def Frame.resolve (σ : Frame) : Nat → PlTerm → PlTerm
  | 0, t => t
  | fuel + 1, t =>
    match σ.walk t with
    | .cons h tl => .cons (Frame.resolve σ fuel h) (Frame.resolve σ fuel tl)
    | .compound f args => .compound f (args.map (Frame.resolve σ fuel))
    | t1 => t1

/-- Outcome of a foreign predicate: it returns `TRUE` or `FALSE`, throws a
Prolog exception, or never returns because it waits on a gate that is not
signalled. -/
inductive Status where
  | TRUE
  | FALSE
  | exception (e : PlException)
  | blocked

/-! ## The Qt object tree -/

/-- Dynamic class of an object, as far as `isWidgetType` and the
`qobject_cast`s of this file tell classes apart. `pqMainWindow` derives from
`QMainWindow`; `ConsoleEdit`, `QMainWindow` and `OtherWidget` derive from
`QWidget`; `NonWidget` is any `QObject` that is not a widget. -/
inductive QClass where
  | NonWidget
  | OtherWidget
  | QMainWindow
  | pqMainWindow
  | ConsoleEdit
deriving DecidableEq, Repr

/-- Test `QObject::isWidgetType()`. -/
def QClass.isWidgetType : QClass → Bool
  | .NonWidget => false
  | _ => true

/-- Test `qobject_cast<ConsoleEdit*>(p) != 0`. -/
def QClass.isConsoleEdit : QClass → Bool
  | .ConsoleEdit => true
  | _ => false

/-- Test `qobject_cast<QMainWindow*>(p) != 0`. -/
def QClass.isQMainWindow : QClass → Bool
  | .QMainWindow => true
  | .pqMainWindow => true
  | _ => false

/-- An object of the Qt object tree: its address and its `children()`, in
list order. -/
inductive QObject where
  | mk (ptr : Nat) (children : List QObject)

/-- Address of the object. -/
def QObject.ptr : QObject → Nat
  | .mk p _ => p

/-- Children `QObject::children()` of the object. -/
def QObject.children : QObject → List QObject
  | .mk _ cs => cs

mutual
/-- Number of objects in the tree below and including this one. -/
def QObject.size : QObject → Nat
  | .mk _ cs => 1 + QObject.sizeList cs
/-- Number of objects in a list of trees. -/
def QObject.sizeList : List QObject → Nat
  | [] => 0
  | c :: cs => QObject.size c + QObject.sizeList cs
end

mutual
/-- Address of the parent of `target` inside the tree, if it is a proper
descendant of this object. -/
def QObject.parentOf (target : Nat) : QObject → Option Nat
  | .mk p cs =>
    if cs.any (fun c => c.ptr == target) then some p
    else QObject.parentOfList target cs
/-- Address of the parent of `target` in the first tree that has one. -/
def QObject.parentOfList (target : Nat) : List QObject → Option Nat
  | [] => none
  | c :: cs =>
    match QObject.parentOf target c with
    | some p => some p
    | none => QObject.parentOfList target cs
end

/-! ## Qt properties -/

/-- Values of the `QVariant` kinds that `unify` handles; `double` carries the
bit pattern, `other` stands for every other kind. -/
inductive QVariant where
  | bool (b : Bool)
  | int (i : Int)
  | uint (n : Nat)
  | double (bits : Nat)
  | string (s : String)
  | other
deriving DecidableEq, Repr

/-- Kind `QVariant::Type` of a value. -/
inductive QVariantType where
  | Bool
  | Int
  | UInt
  | Double
  | String
  | Other
deriving DecidableEq, Repr

/-- Kind of a value. -/
def QVariant.type : QVariant → QVariantType
  | .bool _ => .Bool
  | .int _ => .Int
  | .uint _ => .UInt
  | .double _ => .Double
  | .string _ => .String
  | .other => .Other

/-- A property of an object: its meta data (`QMetaProperty`) together with
the value it currently holds. The property's `type()` is the kind of the
value held; an enumeration property holds an `int`. -/
structure QMetaProperty where
  name : String
  value : QVariant
  isEnumType : Bool
  isFlagType : Bool
  enumerator : List (String × Int)
  isWritable : Bool
deriving DecidableEq, Repr

/-- Kind `QMetaProperty::type()` of the property. -/
def QMetaProperty.type (p : QMetaProperty) : QVariantType := p.value.type

/-- Lookup `QMetaEnum::valueToKey`: key of the first enumerator with the
given value, `none` for the null pointer. -/
def valueToKey (e : List (String × Int)) (v : Int) : Option String :=
  (e.find? (fun kv => kv.2 == v)).map Prod.fst

/-- Lookup `QMetaEnum::keyToValue`: value of the key, `-1` when not found. -/
def keyToValue (e : List (String × Int)) (key : String) : Int :=
  match e.find? (fun kv => kv.1 == key) with
  | some kv => kv.2
  | none => -1

/-! ## Streams -/

/-- Stream flags `SIO_*` of SWI-Stream.h used by this file. -/
inductive SIOFlag where
  | SIO_FBUF
  | SIO_LBUF
  | SIO_NBUF
  | SIO_INPUT
  | SIO_OUTPUT
  | SIO_TEXT
  | SIO_NOCLOSE
  | SIO_ISATTY
  | SIO_NOFEOF
  | SIO_RECORDPOS
deriving DecidableEq, Repr

/-- Encodings `IOENC` of SWI-Stream.h. -/
inductive IOENC where
  | ENC_UNKNOWN
  | ENC_OCTET
  | ENC_ASCII
  | ENC_ISO_LATIN_1
  | ENC_ANSI
  | ENC_UTF8
  | ENC_UNICODE_BE
  | ENC_UNICODE_LE
  | ENC_WCHAR
deriving DecidableEq, Repr

/-- The static callbacks of `Swipl_IO` that a function table can name. -/
inductive IOCallback where
  | _read_f
  | _write_f
  | _seek_f
  | _close_f
  | _control_f
  | _seek64_f
deriving DecidableEq, Repr

/-- Function table `IOFUNCTIONS`. -/
structure IOFUNCTIONS where
  read : IOCallback
  write : IOCallback
  seek : IOCallback
  close : IOCallback
  control : IOCallback
  seek64 : IOCallback
deriving DecidableEq, Repr

/-- Stream `IOSTREAM` as far as this file sets it up: `position` is the index
of the stream whose `posbuf` records the position (when recording is on),
`closed` tells whether `Sclose` has been called on it. -/
structure IOSTREAM where
  handle : Nat
  flags : List SIOFlag
  functions : IOFUNCTIONS
  position : Option Nat
  encoding : IOENC
  closed : Bool
deriving DecidableEq, Repr

/-! ## Closures handed to the GUI thread -/

/-- The lambdas this file passes to `ConsoleEdit::exec_func`, each with the
values it captures. -/
inductive Closure where
  | win_insert_menu (ce : Nat) (Label Before : String)
  | win_insert_menu_item (ce : Nat) (Pulldown Label Before Goal ctxtmod : String)
      (lab_act : List (String × String))
  | tty_clear (c : Nat)
  | win_message_box (c : Nat) (Text Title Image : String) (scale : Nat) (min_width : Int)
  | getOpenFileName (c : Nat) (Caption StartPath Pattern : String)
  | getSaveFileName (c : Nat) (Caption StartPath Pattern : String)
  | select_font (c : Nat)
  | select_ANSI_term_colors (c : Nat)
  | quit_console
  | copy (c : Nat)
  | paste (c : Nat)
  | win_html_write (c : Nat) (html : String)
deriving DecidableEq, Repr

/-! ## The state the predicates act on -/

/-- Window attributes of a widget that this file reads or writes.
`fontWidth` and `fontHeight` are `fontMetrics().size(0, "Q")`. -/
structure QWidgetState where
  windowTitle : String
  width : Int
  height : Int
  x : Int
  y : Int
  visible : Bool
  activated : Nat
  fontWidth : Int
  fontHeight : Int
  font : String
  repaints : Nat
deriving DecidableEq, Repr

/-- Persistent settings `Preferences` (a `QSettings`): stored values by key
path, the console font and the ANSI colour table. -/
structure Preferences where
  store : List (List String × String)
  console_font : String
  ANSI_sequences : List Nat
deriving DecidableEq, Repr

/-- Everything outside the calling Prolog thread that the predicates touch.

* `topLevelWidgets` is `QApplication::topLevelWidgets()`.
* `cls p` is the dynamic class of the object at address `p`.
* `match_thread p t` is the answer of `ConsoleEdit::match_thread(t)` for the
  console at address `p` (the method is declared in ConsoleEdit.h).
* `history`, `text`, `html`, `int_requests` are per console.
* `posted` lists the closures handed to `exec_func`, oldest first, each with
  the console it was handed to.
* `new_console` lists the calls of `ConsoleEdit::new_console`.
* `streams` is the table of streams made by `Snew`; `heap` is the next free
  address for `new`. -/
structure World where
  topLevelWidgets : List QObject
  cls : Nat → QClass
  match_thread : Nat → Int → Bool
  widget : Nat → QWidgetState
  properties : Nat → List QMetaProperty
  history : Nat → List String
  text : Nat → String
  html : Nat → List String
  int_requests : Nat → Nat
  posted : List (Nat × Closure)
  new_console : List (Nat × Nat × String)
  preferences : Preferences
  streams : List IOSTREAM
  heap : Nat

/-- Update the window attributes of the widget at address `p`. -/
def World.setWidget (W : World) (p : Nat) (s : QWidgetState) : World :=
  { W with widget := fun q => if q = p then s else W.widget q }

/-- Parent `parentWidget()` of the widget at address `p`: its parent in the
forest of top-level widgets, `none` for a top-level widget. -/
def World.parentWidget (W : World) (p : Nat) : Option Nat :=
  QObject.parentOfList p W.topLevelWidgets

/-! ## Widget lookup -/

/-- The loop `while (!s.isEmpty())` of `search_widget` on the stack `s`
(top of the stack first). Each turn pops `p`, returns it when `match(p)`,
and otherwise pushes the widget-type children of `p` in list order, so
that the last child ends on top. The first result is `none` when `fuel`
turns did not finish the loop, `some none` when the stack ran empty. -/
def search_stack (cls : Nat → QClass) (matchFn : Nat → Bool) :
    Nat → List QObject → Option (Option Nat)
  | 0, _ => none
  | _ + 1, [] => some none
  | fuel + 1, p :: s =>
    if matchFn p.ptr then some (some p.ptr)
    else search_stack cls matchFn fuel
      ((p.children.filter (fun c => (cls c.ptr).isWidgetType)).reverse ++ s)

/-- The loop `foreach (auto widget, QApplication::topLevelWidgets())` of
`search_widget`: a fresh stack holding `widget` is searched for each
top-level widget in turn. The stack loop gets one turn per object of the
tree plus one to see the empty stack. -/
def search_from (cls : Nat → QClass) (matchFn : Nat → Bool) : List QObject → Option Nat
  | [] => none
  | widget :: rest =>
    match search_stack cls matchFn (widget.size + 1) [widget] with
    | some (some p) => some p
    | _ => search_from cls matchFn rest

/-- Depth first search of the widget hierarchy from the application's
top-level widgets; `none` is the null pointer. -/
def search_widget (W : World) (matchFn : Nat → Bool) : Option Nat :=
  search_from W.cls matchFn W.topLevelWidgets

/-- The console that `match_thread`es the calling thread `thid`
(`PL_thread_self()`), found by `search_widget`. -/
def console_by_thread (W : World) (thid : Int) : Option Nat :=
  search_widget W (fun p => if (W.cls p).isConsoleEdit then W.match_thread p thid else false)

/-- Any console, found by `search_widget`. -/
def console_peek_first (W : World) : Option Nat :=
  search_widget W (fun p => (W.cls p).isConsoleEdit)

mutual
/-- Addresses of the widgets of a tree whose root is a widget: the root and,
recursively, its widget-type children, in pre-order. -/
def QObject.widgets (cls : Nat → QClass) : QObject → List Nat
  | .mk p cs => p :: QObject.widgetsList cls cs
/-- Addresses of the widgets below the widget-type members of a list of
children. -/
def QObject.widgetsList (cls : Nat → QClass) : List QObject → List Nat
  | [] => []
  | c :: cs =>
    (if (cls c.ptr).isWidgetType then QObject.widgets cls c else []) ++
      QObject.widgetsList cls cs
end

/-- Addresses of the widgets of several trees whose roots are widgets. -/
def QObject.widgetsOfRoots (cls : Nat → QClass) : List QObject → List Nat
  | [] => []
  | w :: ws => QObject.widgets cls w ++ QObject.widgetsOfRoots cls ws

/-- The widget forest: every top-level widget and, below each widget, its
widget-type children. -/
def World.forest (W : World) : List Nat :=
  QObject.widgetsOfRoots W.cls W.topLevelWidgets

/-! ## What the platform and the user answer -/

/-- Inputs that are decided outside this file.

* `writeq t` is the text `PL_get_wchars` gives for a term that is neither
  atom, string nor integer.
* `longBits` is the width of a C `long` (32 or 64).
* `intToDouble`, `floatIsZero` stand for the conversion of an integer to a
  double and the test `if (scale)` on the narrowed float.
* `imageLoads` is the answer of `QPixmap::load`, `mboxOk` tells whether
  `mbox.exec()` returned `Ok`, `fileChoice` is what the file dialog
  returns (empty when cancelled), `fontOk`/`font` what the font dialog
  returns, `colorsAccepted`/`customColors` what the colour dialog returns.
* `snewEncoding` is the encoding `Snew` gives a text stream before
  `win_open_console` sets it. -/
structure Env where
  writeq : PlTerm → String
  longBits : Nat
  intToDouble : Int → Nat
  floatIsZero : Nat → Bool
  imageLoads : String → Bool
  mboxOk : Bool
  fileChoice : String
  fontOk : Bool
  font : String
  colorsAccepted : Bool
  customColors : List Nat
  snewEncoding : IOENC

/-- What a foreign predicate leaves behind: its outcome, the world and the
bindings it made. -/
structure Result where
  status : Status
  world : World
  frame : Frame

/-! ## Property bridge: `unify` -/

/-- Conversion `QVariant::toBool` (applied here to a value of kind `Bool`). -/
def QVariant.toBool : QVariant → Bool
  | .bool b => b
  | .int i => i != 0
  | .uint n => n != 0
  | _ => false

/-- Conversion `QVariant::toInt` (applied here to a value of kind `Int`). -/
def QVariant.toInt : QVariant → Int
  | .int i => i
  | .uint n => ((n : Int) + 2 ^ 31) % 2 ^ 32 - 2 ^ 31
  | .bool b => if b then 1 else 0
  | _ => 0

/-- Conversion `QVariant::toUInt` (applied here to a value of kind `UInt`). -/
def QVariant.toUInt : QVariant → Nat
  | .uint n => n
  | .int i => (i % 2 ^ 32).toNat
  | .bool b => if b then 1 else 0
  | _ => 0

/-- Conversion `QVariant::toString` (applied here to a value of kind `String`). -/
def QVariant.toQString : QVariant → String
  | .string s => s
  | .int i => toString i
  | .uint n => toString n
  | .bool b => if b then "true" else "false"
  | _ => ""

/-- Conversion of a written value to the kind of the property, as
`QMetaProperty::write` does before it calls the setter. The calls of this
file write an `int` to an `Int` or `UInt` property, a string to a `String`
property and a double to a `Double` property. -/
def QVariant.convert (v : QVariant) (t : QVariantType) : Option QVariant :=
  match v, t with
  | .bool b, .Bool => some (.bool b)
  | .int i, .Int => some (.int i)
  | .int i, .UInt => some (.uint (i % 2 ^ 32).toNat)
  | .uint n, .UInt => some (.uint n)
  | .uint n, .Int => some (.int (((n : Int) + 2 ^ 31) % 2 ^ 32 - 2 ^ 31))
  | .double b, .Double => some (.double b)
  | .string s, .String => some (.string s)
  | _, _ => none

/-- Index `QMetaObject::indexOfProperty(name)`, `none` for `-1`. -/
def indexOfProperty (props : List QMetaProperty) (name : String) : Option Nat :=
  props.findIdx? (fun p => p.name == name)

/-- Store `value` in property `pid` of object `o`. -/
def World.setProperty (W : World) (o pid : Nat) (value : QVariant) : World :=
  { W with properties := fun q =>
      if q = o then
        List.modify (fun p => { p with value := value }) pid (W.properties o)
      else W.properties q }

/-- Call `p.write(o, v)` for property `pid` of object `o`: refused for a
property that is not writable or when `v` does not convert to the
property's kind, otherwise the converted value is stored. -/
def QMetaProperty.write (p : QMetaProperty) (pid o : Nat) (v : QVariant) (W : World) :
    Bool × World :=
  if p.isWritable then
    match v.convert p.type with
    | some v1 => (true, W.setProperty o pid v1)
    | none => (false, W)
  else (false, W)

/-- Message `tr("property %1: type mismatch").arg(p.name())`, no translator
installed. -/
def typeMismatch (name : String) : String := "property " ++ name ++ ": type mismatch"

/-- Message `tr("property %1: not found").arg(name)`, no translator
installed. -/
def notFound (name : String) : String := "property " ++ name ++ ": not found"

/-- Conversion of an integer to a signed C integer of `bits` bits. -/
def wrapSigned (bits : Nat) (i : Int) : Int :=
  (i + 2 ^ (bits - 1)) % 2 ^ bits - 2 ^ (bits - 1)

/-- Function `unify(const QMetaProperty& p, QObject *o, PlTerm v)`: read
property `p` (number `pid` of object `o`) into an unbound `v`, or write a
bound `v` to it. Returns the `QString` of the source, empty for `OK`; the
conversion `qint32(v)` may throw. The `Q_ASSERT`s are compiled out. -/
def unify (E : Env) (p : QMetaProperty) (pid o : Nat) (v : PlTerm) (W : World) (σ : Frame) :
    Except PlException (String × World × Frame) :=
  match (σ.walk v).type with
  | .PL_VARIABLE =>
    match p.type with
    | .Bool =>
      .ok ("", W, (σ.unifyAtomic v (.atom (if p.value.toBool then "true" else "false"))).2)
    | .Int =>
      match (if p.isEnumType then valueToKey p.enumerator p.value.toInt else none) with
      | some key => .ok ("", W, (σ.unifyAtomic v (.atom key)).2)
      | none => .ok ("", W, (σ.unifyAtomic v (.integer p.value.toInt)).2)
    | .UInt =>
      .ok ("", W, (σ.unifyAtomic v (.integer (wrapSigned E.longBits p.value.toUInt))).2)
    | .String => .ok ("", W, (σ.unifyAtomic v (.atom p.value.toQString)).2)
    | _ => .ok (typeMismatch p.name, W, σ)
  | .PL_INTEGER =>
    match p.type with
    | .Int | .UInt =>
      match PlTerm.toInteger σ 32 v with
      | .error e => .error e
      | .ok i =>
        let r := p.write pid o (.int i) W
        if r.1 then .ok ("", r.2, σ) else .ok (typeMismatch p.name, r.2, σ)
    | _ => .ok (typeMismatch p.name, W, σ)
  | .PL_ATOM =>
    match p.type with
    | .String =>
      match σ.walk v with
      | .atom s =>
        let r := p.write pid o (.string s) W
        if r.1 then .ok ("", r.2, σ) else .ok (typeMismatch p.name, r.2, σ)
      | _ => .ok (typeMismatch p.name, W, σ)
    | .Int =>
      match σ.walk v with
      | .atom s =>
        if p.isEnumType then
          let i := keyToValue p.enumerator s
          if i != -1 then .ok ("", (p.write pid o (.int i) W).2, σ)
          else .ok (typeMismatch p.name, W, σ)
        else .ok (typeMismatch p.name, W, σ)
      | _ => .ok (typeMismatch p.name, W, σ)
    | _ => .ok (typeMismatch p.name, W, σ)
  | .PL_FLOAT =>
    match p.type with
    | .Double =>
      match σ.walk v with
      | .float bits =>
        let r := p.write pid o (.double bits) W
        if r.1 then .ok ("", r.2, σ) else .ok (typeMismatch p.name, r.2, σ)
      | _ => .ok (typeMismatch p.name, W, σ)
    | _ => .ok (typeMismatch p.name, W, σ)
  | _ => .ok (typeMismatch p.name, W, σ)

/-- Function `unify(CCP name, QObject *o, PlTerm v)`: seek the property by
name, then `unify` it. -/
def unify_by_name (E : Env) (name : String) (o : Nat) (v : PlTerm) (W : World) (σ : Frame) :
    Except PlException (String × World × Frame) :=
  match indexOfProperty (W.properties o) name with
  | some pid =>
    match (W.properties o).get? pid with
    | some p => unify E p pid o v W σ
    | none => .ok (notFound name, W, σ)
  | none => .ok (notFound name, W, σ)

/-! ## Calls into `ConsoleEdit` -/

/-- Modelled from the spec: `ConsoleEdit::exec_func` belongs to
ConsoleEdit.cpp, which is not under src/. The spec has submission enqueue
the work on the GUI thread's queue in FIFO order and return at once: the
world records the closure after those handed over before. -/
def World.exec_func (W : World) (ce : Nat) (f : Closure) : World :=
  { W with posted := W.posted ++ [(ce, f)] }

/-- What running a closure on the GUI thread leaves behind: the values it
wrote to the variables it captured by reference, the world, and the number
of times it called `go()` on its `exec_sync` gate. -/
structure Ran (α : Type) where
  out : α
  world : World
  go : Nat

/-- Modelled from the spec: `ConsoleEdit::exec_sync` belongs to
ConsoleEdit.cpp, which is not under src/. The spec has the submitting
thread block on the gate until it is signalled: `s.stop()` returns once
`go()` has been called. -/
def exec_sync_released (go : Nat) : Bool := decide (0 < go)

/-- Conversion to a C `int`, as when a `long` is passed to `resize(int, int)`. -/
def toCInt (i : Int) : Int := wrapSigned 32 i

/-! ## Predicates: window title, geometry, menus -/

/-- Predicate `window_title(-Old, +New)`. -/
def window_title (E : Env) (thid : Int) (A1 A2 : PlTerm) (W : World) : Result :=
  let σ := Frame.initial [A1, A2]
  match console_by_thread W thid with
  | some c =>
    match W.parentWidget c with
    | some w =>
      if (W.cls w).isQMainWindow then
        let σ1 := (σ.unifyAtomic A1 (.atom (W.widget w).windowTitle)).2
        ⟨.TRUE, W.setWidget w { W.widget w with windowTitle := t2w E.writeq σ1 A2 }, σ1⟩
      else ⟨.FALSE, W, σ⟩
    | none => ⟨.FALSE, W, σ⟩
  | none => ⟨.FALSE, W, σ⟩

/-- One turn of the option loop of `win_window_pos` on the option `opt`,
for console `c` with parent `w`: the world after the option took effect,
`none` when the option is none of the five known ones (the `return FALSE`
at the end of the loop body), or the exception a conversion throws. -/
def win_window_pos_option (E : Env) (c w : Nat) (opt : PlTerm) (W : World) (σ : Frame) :
    Except PlException (Option World) := do
  let a ← PlTerm.arity σ opt
  let n ← PlTerm.name σ opt
  if a = 2 ∧ n = "size" then
    let W_ ← (PlTerm.arg σ opt 1) >>= PlTerm.toInteger σ E.longBits
    let H ← (PlTerm.arg σ opt 2) >>= PlTerm.toInteger σ E.longBits
    pure (some (W.setWidget w { W.widget w with
      width := toCInt ((W.widget c).fontWidth * W_),
      height := toCInt ((W.widget c).fontHeight * H) }))
  else if a = 2 ∧ n = "position" then
    let X ← (PlTerm.arg σ opt 1) >>= PlTerm.toInteger σ E.longBits
    let Y ← (PlTerm.arg σ opt 2) >>= PlTerm.toInteger σ E.longBits
    pure (some (W.setWidget w { W.widget w with x := toCInt X, y := toCInt Y }))
  else if a = 1 ∧ n = "zorder" then
    pure (some W)
  else if a = 1 ∧ n = "show" then
    let y ← (PlTerm.arg σ opt 1) >>= PlTerm.name σ
    pure (some (W.setWidget w { W.widget w with visible := decide (y = "true") }))
  else if a = 0 ∧ n = "activate" then
    pure (some (W.setWidget w { W.widget w with activated := (W.widget w).activated + 1 }))
  else
    pure none

/-- The loop `while (options.next(opt))` of `win_window_pos` over the rest
`options` of the list: a list cell gives the next option, `[]` ends the
loop with `TRUE`, any other tail makes `next` throw. -/
def win_window_pos_loop (E : Env) (c w : Nat) : PlTerm → World → Frame → Result
  | .cons opt rest, W, σ =>
    match win_window_pos_option E c w opt W σ with
    | .error e => ⟨.exception e, W, σ⟩
    | .ok none => ⟨.FALSE, W, σ⟩
    | .ok (some W1) => win_window_pos_loop E c w rest W1 σ
  | .nil, W, σ => ⟨.TRUE, W, σ⟩
  | other, W, σ => ⟨.exception (.type_error "list" other), W, σ⟩

/-- Predicate `win_window_pos(Options)`. -/
def win_window_pos (E : Env) (thid : Int) (A1 : PlTerm) (W : World) : Result :=
  let σ := Frame.initial [A1]
  match console_by_thread W thid with
  | none => ⟨.FALSE, W, σ⟩
  | some c =>
    match W.parentWidget c with
    | none => ⟨.FALSE, W, σ⟩
    | some w =>
      match PlTail.new σ A1 with
      | .error e => ⟨.exception e, W, σ⟩
      | .ok options => win_window_pos_loop E c w options.ref W σ

/-- Predicate `win_has_menu`. -/
def win_has_menu (thid : Int) (W : World) : Result :=
  let σ := Frame.initial []
  match console_by_thread W thid with
  | some ce =>
    match W.parentWidget ce with
    | some w => if (W.cls w).isQMainWindow then ⟨.TRUE, W, σ⟩ else ⟨.FALSE, W, σ⟩
    | none => ⟨.FALSE, W, σ⟩
  | none => ⟨.FALSE, W, σ⟩

/-- Predicate `win_insert_menu(+Label, +Before)`. -/
def win_insert_menu (E : Env) (thid : Int) (A1 A2 : PlTerm) (W : World) : Result :=
  let σ := Frame.initial [A1, A2]
  match console_by_thread W thid with
  | some ce =>
    ⟨.TRUE, W.exec_func ce (.win_insert_menu ce (t2w E.writeq σ A1) (t2w E.writeq σ A2)), σ⟩
  | none => ⟨.FALSE, W, σ⟩

/-- The loop `while (labels.next(label) && actions.next(action))` of
`win_insert_menu_item`, collecting the pairs of texts. -/
def win_insert_menu_item_pairs (E : Env) (σ : Frame) :
    PlTerm → PlTerm → Except PlException (List (String × String))
  | .cons label labels, .cons action actions =>
    match win_insert_menu_item_pairs E σ labels actions with
    | .ok ps => .ok ((t2w E.writeq σ label, t2w E.writeq σ action) :: ps)
    | .error e => .error e
  | .cons _ _, .nil => .ok []
  | .cons _ _, other => .error (.type_error "list" other)
  | .nil, _ => .ok []
  | other, _ => .error (.type_error "list" other)

/-- Predicate `win_insert_menu_item(+Pulldown, +Label, +Before, :Goal)`. -/
def win_insert_menu_item (E : Env) (thid : Int) (A1 A2 A3 A4 : PlTerm) (W : World) : Result :=
  let σ := Frame.initial [A1, A2, A3, A4]
  match console_by_thread W thid with
  | some ce =>
    let Pulldown := t2w E.writeq σ A1
    let Before := t2w E.writeq σ A3
    match PlTerm.arity σ A2 with
    | .error e => ⟨.exception e, W, σ⟩
    | .ok 2 =>
      match PlTerm.arg σ A2 1, (PlTerm.arg σ A2 2) >>= PlTail.new σ, PlTail.new σ A4 with
      | .ok l, .ok labels, .ok actions =>
        match win_insert_menu_item_pairs E σ labels.ref actions.ref with
        | .ok lab_act =>
          ⟨.TRUE, W.exec_func ce (.win_insert_menu_item ce Pulldown (t2w E.writeq σ l) Before ""
            "win_menu" lab_act), σ⟩
        | .error e => ⟨.exception e, W, σ⟩
      | .error e, _, _ => ⟨.exception e, W, σ⟩
      | _, .error e, _ => ⟨.exception e, W, σ⟩
      | _, _, .error e => ⟨.exception e, W, σ⟩
    | .ok _ =>
      ⟨.TRUE, W.exec_func ce (.win_insert_menu_item ce Pulldown (t2w E.writeq σ A2) Before
        (t2w E.writeq σ A4) "win_menu" []), σ⟩
  | none => ⟨.FALSE, W, σ⟩

/-- Body of the closure of `tty_clear`: `c->tty_clear(); s.go();`.
`ConsoleEdit::tty_clear` is taken to empty the text of the console. -/
def closure_tty_clear (c : Nat) (W : World) : Ran Unit :=
  { out := (), world := { W with text := fun q => if q = c then "" else W.text q }, go := 1 }

/-- Predicate `tty_clear`. -/
def tty_clear (thid : Int) (W : World) : Result :=
  let σ := Frame.initial []
  match console_by_thread W thid with
  | some c =>
    let r := closure_tty_clear c (W.exec_func c (.tty_clear c))
    if exec_sync_released r.go then ⟨.TRUE, r.world, σ⟩ else ⟨.blocked, r.world, σ⟩
  | none => ⟨.FALSE, W, σ⟩

/-- The table `rlc_functions` of `win_open_console`. -/
def rlc_functions : IOFUNCTIONS :=
  { read := ._read_f, write := ._write_f, seek := ._seek_f, close := ._close_f,
    control := ._control_f, seek64 := ._seek64_f }

/-- The flags `STREAM_COMMON`. -/
def STREAM_COMMON : List SIOFlag := [.SIO_TEXT, .SIO_NOCLOSE, .SIO_ISATTY, .SIO_NOFEOF]

/-- Call `Snew(handle, flags, functions)`: a new open stream is added to the
stream table and its index returned. The stream records its position in
its own `posbuf` when `SIO_RECORDPOS` is set and starts with the encoding
`Snew` chooses for it. -/
def Snew (E : Env) (handle : Nat) (flags : List SIOFlag) (functions : IOFUNCTIONS) (W : World) :
    Nat × World :=
  (W.streams.length,
   { W with streams := W.streams ++
      [{ handle := handle, flags := flags, functions := functions,
         position := if SIOFlag.SIO_RECORDPOS ∈ flags then some W.streams.length else none,
         encoding := E.snewEncoding, closed := false }] })

/-- Update stream `i` of the stream table. -/
def World.modifyStream (W : World) (i : Nat) (f : IOSTREAM → IOSTREAM) : World :=
  { W with streams := List.modify f i W.streams }

/-- Call `Sclose(s)` on stream `i`. -/
def Sclose (i : Nat) (W : World) : World :=
  W.modifyStream i (fun s => { s with closed := true })

/-- Predicate `win_open_console(Title, In, Out, Err, Options)`. The call
`ce->new_console(c, title)` is recorded in the world. -/
def win_open_console (E : Env) (A1 A2 A3 A4 A5 : PlTerm) (W : World) : Result :=
  let σ := Frame.initial [A1, A2, A3, A4, A5]
  match console_peek_first W with
  | none => ⟨.exception (.message "no ConsoleEdit available"), W, σ⟩
  | some ce =>
    let c := W.heap
    let W0 := { W with heap := W.heap + 1 }
    let r1 := Snew E c ([.SIO_INPUT, .SIO_LBUF] ++ STREAM_COMMON) rlc_functions W0
    let r2 := Snew E c ([.SIO_OUTPUT, .SIO_LBUF] ++ STREAM_COMMON) rlc_functions r1.2
    let r3 := Snew E c ([.SIO_OUTPUT, .SIO_NBUF] ++ STREAM_COMMON) rlc_functions r2.2
    let inp := r1.1
    let out := r2.1
    let err := r3.1
    let W1 := ((r3.2.modifyStream inp (fun s => { s with position := some inp })).modifyStream
      out (fun s => { s with position := some inp })).modifyStream
      err (fun s => { s with position := some inp })
    let W2 := ((W1.modifyStream inp (fun s => { s with encoding := .ENC_UTF8 })).modifyStream
      out (fun s => { s with encoding := .ENC_UTF8 })).modifyStream
      err (fun s => { s with encoding := .ENC_UTF8 })
    let W3 := { W2 with new_console := W2.new_console ++ [(ce, c, t2w E.writeq σ A1)] }
    let u1 := σ.unifyAtomic A2 (.stream inp)
    if u1.1 then
      let u2 := u1.2.unifyAtomic A3 (.stream out)
      if u2.1 then
        let u3 := u2.2.unifyAtomic A4 (.stream err)
        if u3.1 then ⟨.TRUE, W3, u3.2⟩
        else ⟨.FALSE, Sclose err (Sclose out (Sclose inp W3)), u3.2⟩
      else ⟨.FALSE, Sclose err (Sclose out (Sclose inp W3)), u2.2⟩
    else ⟨.FALSE, Sclose err (Sclose out (Sclose inp W3)), u1.2⟩

/-- Modelled from the spec: `ConsoleEdit::add_history_line` belongs to
ConsoleEdit.cpp, which is not under src/. The spec has the history as an
append-only ordered sequence of command lines and the append as a plain
push: the line is added after the lines already there. -/
def add_history_line (c : Nat) (line : String) (W : World) : World :=
  { W with history := fun q => if q = c then W.history c ++ [line] else W.history q }

/-- Modelled from the spec: `ConsoleEdit::history_lines` belongs to
ConsoleEdit.cpp, which is not under src/. The spec has retrieval return the
full ordered sequence of the lines appended, oldest first. -/
def history_lines (c : Nat) (W : World) : List String := W.history c

/-- Conversion `WCP(t)` (`PlTerm::operator wchar_t*`): the wide characters
of the text of the term as `PL_get_wchars(CVT_ALL|CVT_WRITEQ)` yields them,
NUL characters inside the text included; the array ends with one more
NUL. -/
def WCP (writeq : PlTerm → String) (σ : Frame) (t : PlTerm) : String :=
  match σ.walk t with
  | .atom s => s
  | .string s => s
  | .integer i => toString i
  | t1 => writeq t1

/-- The wide character `*line` a NUL-terminated array starts with: the
first character of the text, the ending NUL when the text is empty. -/
def firstWChar (line : String) : Char := line.data.headD (Char.ofNat 0)

/-- Conversion `QString::fromWCharArray(line)` of a NUL-terminated array:
the characters in front of the first NUL. -/
def fromWCharArray (line : String) : String :=
  String.mk (line.data.takeWhile (fun ch => ch ≠ Char.ofNat 0))

/-- Predicate `rl_add_history(+Line)`: `WCP line = PL_A1; if (*line)
c->add_history_line(QString::fromWCharArray(line));`. -/
def rl_add_history (E : Env) (thid : Int) (A1 : PlTerm) (W : World) : Result :=
  let σ := Frame.initial [A1]
  match console_by_thread W thid with
  | some c =>
    let line := WCP E.writeq σ A1
    if firstWChar line ≠ Char.ofNat 0 then
      ⟨.TRUE, add_history_line c (fromWCharArray line) W, σ⟩
    else ⟨.TRUE, W, σ⟩
  | none => ⟨.FALSE, W, σ⟩

/-- Predicate `rl_read_init_file(+File)`. -/
def rl_read_init_file (A1 : PlTerm) (W : World) : Result :=
  ⟨.TRUE, W, Frame.initial [A1]⟩

/-- The loop `foreach(QString x, c->history_lines()) lines.append(W(x))` of
`$rl_history`; the results of `append` are not looked at. -/
def rl_history_loop : List String → PlTail → Frame → PlTail × Frame
  | [], lines, σ => (lines, σ)
  | x :: xs, lines, σ =>
    let r := PlTail.append σ lines (.atom x)
    rl_history_loop xs r.2.1 r.2.2

/-- Predicate `'$rl_history'(-Lines)`. -/
def rl_history (thid : Int) (A1 : PlTerm) (W : World) : Result :=
  let σ := Frame.initial [A1]
  match console_by_thread W thid with
  | some c =>
    match PlTail.new σ A1 with
    | .error e => ⟨.exception e, W, σ⟩
    | .ok lines =>
      let r := rl_history_loop (history_lines c W) lines σ
      ⟨.TRUE, W, (PlTail.close r.2 r.1).2⟩
  | none => ⟨.FALSE, W, σ⟩

/-- Predicate `tty_size(-Rows, -Cols)`; the divisions are those of C, on a
font of non-zero extent. -/
def tty_size (thid : Int) (A1 A2 : PlTerm) (W : World) : Result :=
  let σ := Frame.initial [A1, A2]
  match console_by_thread W thid with
  | some c =>
    let Rows := Int.tdiv (W.widget c).height (W.widget c).fontHeight
    let Cols := Int.tdiv (W.widget c).width (W.widget c).fontWidth
    let σ1 := (σ.unifyAtomic A1 (.integer Rows)).2
    ⟨.TRUE, W, (σ1.unifyAtomic A2 (.integer Cols)).2⟩
  | none => ⟨.FALSE, W, σ⟩

/-- Predicate `interrupt`; `ConsoleEdit::int_request` is recorded as one
more pending request on the console. -/
def interrupt (thid : Int) (W : World) : Result :=
  let σ := Frame.initial []
  match console_by_thread W thid with
  | some c =>
    ⟨.TRUE, { W with int_requests := fun q =>
      if q = c then W.int_requests c + 1 else W.int_requests q }, σ⟩
  | none => ⟨.FALSE, W, σ⟩

/-! ## Predicates: message box, settings, dialogs, clipboard -/

/-- Options of `win_message_box` as the scan of the option list leaves them. -/
structure MessageBoxOptions where
  Title : String
  Icon : Option PlTerm
  Image : String
  scale : Nat
  min_width : Int

/-- Conversion `double(t)`: `PL_get_float` on a float or an integer, type
error otherwise; the result is the bit pattern. -/
def PlTerm.toDouble (E : Env) (σ : Frame) (t : PlTerm) : Except PlException Nat :=
  match σ.walk t with
  | .float bits => .ok bits
  | .integer i => .ok (E.intToDouble i)
  | _ => .error (.type_error "float" t)

/-- Body of the option loop of `win_message_box` for one option. -/
def win_message_box_option (E : Env) (σ : Frame) (opt : PlTerm) (o : MessageBoxOptions) :
    Except PlException MessageBoxOptions := do
  let a ← PlTerm.arity σ opt
  if a = 1 then
    let name ← PlTerm.name σ opt
    let o1 ← if name = "title" then
        (PlTerm.arg σ opt 1) >>= fun t => pure { o with Title := t2w E.writeq σ t }
      else pure o
    let o2 ← if name = "icon" then
        (PlTerm.arg σ opt 1) >>= fun t => pure { o1 with Icon := some t }
      else pure o1
    let o3 ← if name = "image" then
        (PlTerm.arg σ opt 1) >>= fun t => pure { o2 with Image := t2w E.writeq σ t }
      else pure o2
    let o4 ← if name = "image_scale" then
        (PlTerm.arg σ opt 1) >>= PlTerm.toDouble E σ >>= fun d => pure { o3 with scale := d }
      else pure o3
    if name = "min_width" then
      (PlTerm.arg σ opt 1) >>= PlTerm.toInteger σ 32 >>= fun i => pure { o4 with min_width := i }
    else pure o4
  else
    throw (.message ("option " ++ t2w E.writeq σ opt ++ " : invalid arity"))

/-- The loop `for (PlTail t(PL_A2); t.next(Option); )` of `win_message_box`. -/
def win_message_box_options (E : Env) (σ : Frame) :
    PlTerm → MessageBoxOptions → Except PlException MessageBoxOptions
  | .cons opt rest, o =>
    match win_message_box_option E σ opt o with
    | .ok o1 => win_message_box_options E σ rest o1
    | .error e => .error e
  | .nil, o => .ok o
  | other, _ => .error (.type_error "list" other)

/-- Values the closure of `win_message_box` writes: `err`, `rc` (`none` as
long as it is not assigned), and how the box was set up when shown. -/
structure MessageBoxRun where
  err : String
  rc : Option Bool
  shown : Option (String × String × Bool × Bool × Bool)

/-- Body of the closure of `win_message_box`. When an image is asked for
and does not load, the closure sets `err` and returns at once; otherwise
it shows the box (text, title, whether an icon pixmap was set, whether it
was scaled, whether a spacer was added), stores the answer in `rc` and
calls `s.go()`. -/
def closure_win_message_box (E : Env) (Text Title Image : String) (scale : Nat)
    (min_width : Int) (W : World) : Ran MessageBoxRun :=
  if Image ≠ "" ∧ E.imageLoads Image = false then
    { out := { err := "icon file " ++ Image ++ " not found", rc := none, shown := none },
      world := W, go := 0 }
  else
    { out := { err := "", rc := some E.mboxOk,
               shown := some (Text, Title, decide (Image ≠ ""),
                 decide (Image ≠ "") && !E.floatIsZero scale, decide (min_width ≠ 0)) },
      world := W, go := 1 }

/-- Predicate `win_message_box(+Text, +Options)`. -/
def win_message_box (E : Env) (thid : Int) (A1 A2 : PlTerm) (W : World) : Result :=
  let σ := Frame.initial [A1, A2]
  match console_by_thread W thid with
  | some c =>
    let Text := t2w E.writeq σ A1
    match (PlTail.new σ A2) >>= fun t => win_message_box_options E σ t.ref
        { Title := "swipl-win", Icon := none, Image := "", scale := 0, min_width := 0 } with
    | .error e => ⟨.exception e, W, σ⟩
    | .ok o =>
      let W1 := W.exec_func c (.win_message_box c Text o.Title o.Image o.scale o.min_width)
      let r := closure_win_message_box E Text o.Title o.Image o.scale o.min_width W1
      if exec_sync_released r.go then
        if r.out.err ≠ "" then ⟨.exception (.message r.out.err), r.world, σ⟩
        else if r.out.rc = some true then ⟨.TRUE, r.world, σ⟩
        else ⟨.FALSE, r.world, σ⟩
      else ⟨.blocked, r.world, σ⟩
  | none => ⟨.FALSE, W, σ⟩

/-- Body of the option loop of `console_settings` for one option: the
`QString` that `unify` returns is dropped. -/
def console_settings_option (E : Env) (c : Nat) (opt : PlTerm) (W : World) (σ : Frame) :
    Except PlException (World × Frame) := do
  let a ← PlTerm.arity σ opt
  if a = 1 then
    let name ← PlTerm.name σ opt
    let v ← PlTerm.arg σ opt 1
    let r ← unify_by_name E name c v W σ
    pure r.2
  else
    throw (.message (t2w E.writeq σ opt ++ ": properties have arity 1"))

/-- The loop `for (PlTail opts(PL_A1); opts.next(opt); )` of
`console_settings`. A tail that is a variable bound meanwhile holds an
atomic value, so `next` throws on it as on any other non-list. -/
def console_settings_loop (E : Env) (c : Nat) : PlTerm → World → Frame → Result
  | .cons opt rest, W, σ =>
    match console_settings_option E c opt W σ with
    | .error e => ⟨.exception e, W, σ⟩
    | .ok r => console_settings_loop E c rest r.1 r.2
  | .nil, W, σ => ⟨.TRUE, W, σ⟩
  | other, W, σ => ⟨.exception (.type_error "list" (σ.walk other)), W, σ⟩

/-- Predicate `console_settings(+Options)`. -/
def console_settings (E : Env) (thid : Int) (A1 : PlTerm) (W : World) : Result :=
  let σ := Frame.initial [A1]
  match console_by_thread W thid with
  | some c =>
    match PlTail.new σ A1 with
    | .error e => ⟨.exception e, W, σ⟩
    | .ok opts => console_settings_loop E c opts.ref W σ
  | none => ⟨.FALSE, W, σ⟩

/-- Body of the closures of `getOpenFileName` and `getSaveFileName`:
`Choice = QFileDialog::get...FileName(...); s.go();`. -/
def closure_getFileName (E : Env) (W : World) : Ran String :=
  { out := E.fileChoice, world := W, go := 1 }

/-- Start path of the file dialogs: the text of the second argument when
it is an atom. -/
def startPath (E : Env) (σ : Frame) (A2 : PlTerm) : String :=
  if (σ.walk A2).type = .PL_ATOM then t2w E.writeq σ A2 else ""

/-- Predicate `getOpenFileName(+Title, ?StartPath, +Pattern, -Choice)`. -/
def getOpenFileName (E : Env) (thid : Int) (A1 A2 A3 A4 : PlTerm) (W : World) : Result :=
  let σ := Frame.initial [A1, A2, A3, A4]
  match console_by_thread W thid with
  | some c =>
    let r := closure_getFileName E (W.exec_func c
      (.getOpenFileName c (t2w E.writeq σ A1) (startPath E σ A2) (t2w E.writeq σ A3)))
    if exec_sync_released r.go then
      if r.out ≠ "" then ⟨.TRUE, r.world, (σ.unifyAtomic A4 (.atom r.out)).2⟩
      else ⟨.FALSE, r.world, σ⟩
    else ⟨.blocked, r.world, σ⟩
  | none => ⟨.FALSE, W, σ⟩

/-- Predicate `getSaveFileName(+Title, ?StartPath, +Pattern, -Choice)`. -/
def getSaveFileName (E : Env) (thid : Int) (A1 A2 A3 A4 : PlTerm) (W : World) : Result :=
  let σ := Frame.initial [A1, A2, A3, A4]
  match console_by_thread W thid with
  | some c =>
    let r := closure_getFileName E (W.exec_func c
      (.getSaveFileName c (t2w E.writeq σ A1) (startPath E σ A2) (t2w E.writeq σ A3)))
    if exec_sync_released r.go then
      if r.out ≠ "" then ⟨.TRUE, r.world, (σ.unifyAtomic A4 (.atom r.out)).2⟩
      else ⟨.FALSE, r.world, σ⟩
    else ⟨.blocked, r.world, σ⟩
  | none => ⟨.FALSE, W, σ⟩

/-- Body of the closure of `select_font`: the font dialog starts from
`p.console_font`; an accepted font becomes the console's font and
`p.console_font`. The local `Preferences p` is taken to be the stored
preferences. The value written is `ok`. -/
def closure_select_font (E : Env) (c : Nat) (W : World) : Ran Bool :=
  if E.fontOk then
    { out := true,
      world := { (W.setWidget c { W.widget c with font := E.font }) with
        preferences := { W.preferences with console_font := E.font } },
      go := 1 }
  else { out := false, world := W, go := 1 }

/-- Predicate `select_font`. -/
def select_font (E : Env) (thid : Int) (W : World) : Result :=
  let σ := Frame.initial []
  match console_by_thread W thid with
  | some c =>
    let r := closure_select_font E c (W.exec_func c (.select_font c))
    if exec_sync_released r.go then
      if r.out then ⟨.TRUE, r.world, σ⟩ else ⟨.FALSE, r.world, σ⟩
    else ⟨.blocked, r.world, σ⟩
  | none => ⟨.FALSE, W, σ⟩

/-- Body of the closure of `select_ANSI_term_colors`: when the colour
dialog is accepted, entry `i` of `p.ANSI_sequences` becomes custom colour
`i` of the dialog and the console is repainted. The local `Preferences p`
is taken to be the stored preferences. The value written is `ok`. -/
def closure_select_ANSI_term_colors (E : Env) (c : Nat) (W : World) : Ran Bool :=
  if E.colorsAccepted then
    { out := true,
      world := { (W.setWidget c { W.widget c with repaints := (W.widget c).repaints + 1 }) with
        preferences := { W.preferences with
          ANSI_sequences := (List.range W.preferences.ANSI_sequences.length).map
            (fun i => E.customColors.getD i 0) } },
      go := 1 }
  else { out := false, world := W, go := 1 }

/-- Predicate `select_ANSI_term_colors`. -/
def select_ANSI_term_colors (E : Env) (thid : Int) (W : World) : Result :=
  let σ := Frame.initial []
  match console_by_thread W thid with
  | some c =>
    let r := closure_select_ANSI_term_colors E c (W.exec_func c (.select_ANSI_term_colors c))
    if exec_sync_released r.go then
      if r.out then ⟨.TRUE, r.world, σ⟩ else ⟨.FALSE, r.world, σ⟩
    else ⟨.blocked, r.world, σ⟩
  | none => ⟨.FALSE, W, σ⟩

/-- Predicate `quit_console`. -/
def quit_console (thid : Int) (W : World) : Result :=
  let σ := Frame.initial []
  match console_by_thread W thid with
  | some c => ⟨.TRUE, W.exec_func c .quit_console, σ⟩
  | none => ⟨.FALSE, W, σ⟩

/-- Predicate `copy`. -/
def copy (thid : Int) (W : World) : Result :=
  let σ := Frame.initial []
  match console_by_thread W thid with
  | some c => ⟨.TRUE, W.exec_func c (.copy c), σ⟩
  | none => ⟨.FALSE, W, σ⟩

/-- Predicate `paste`. -/
def paste (thid : Int) (W : World) : Result :=
  let σ := Frame.initial []
  match console_by_thread W thid with
  | some c => ⟨.TRUE, W.exec_func c (.paste c), σ⟩
  | none => ⟨.FALSE, W, σ⟩

/-- Body of the closure of `win_html_write`: `c->html_write(html); s.go();`.
`ConsoleEdit::html_write` is recorded as one more piece of html on the
console. -/
def closure_win_html_write (c : Nat) (html : String) (W : World) : Ran Unit :=
  { out := (), world := { W with html := fun q => if q = c then W.html c ++ [html] else W.html q },
    go := 1 }

/-- Predicate `win_html_write(+Html)`. -/
def win_html_write (E : Env) (thid : Int) (A1 : PlTerm) (W : World) : Result :=
  let σ := Frame.initial [A1]
  match console_by_thread W thid with
  | some c =>
    let html := t2w E.writeq σ A1
    let r := closure_win_html_write c html (W.exec_func c (.win_html_write c html))
    if exec_sync_released r.go then ⟨.TRUE, r.world, σ⟩ else ⟨.blocked, r.world, σ⟩
  | none => ⟨.FALSE, W, σ⟩

/-! ## Sequences of calls and the caller's view of a term -/

/-- The world after thread `thid` has called `rl_add_history` with each of
the arguments `lines` in turn. -/
def rl_add_history_calls (E : Env) (thid : Int) : List PlTerm → World → World
  | [], W => W
  | a :: rest, W => rl_add_history_calls E thid rest (rl_add_history E thid a W).world

/-- The line a call `rl_add_history(a)` is given: the wide characters of
the text of its argument. -/
def lineText (E : Env) (a : PlTerm) : String := WCP E.writeq (Frame.initial [a]) a

/-- The line a call `rl_add_history(a)` hands to the console: the line it
is given, cut in front of its first NUL character. -/
def historyLine (E : Env) (a : PlTerm) : String := fromWCharArray (lineText E a)

/-- The term as the caller sees it once the predicate has returned: the
bindings of the frame substituted throughout. -/
def Frame.value (σ : Frame) (t : PlTerm) : PlTerm := σ.resolve (σ.bindings.length + 1) t

/-- The frame binds variable `v` to the list `xs` cell by cell: `v` to
`[x|V]` with `V` the variable `v + 1`, and so on up to `[]`. -/
def Frame.holdsList (τ : Frame) : List PlTerm → Nat → Prop
  | [], v => τ.lookup v = some .nil
  | x :: xs, v => τ.lookup v = some (.cons x (.var (v + 1))) ∧ Frame.holdsList τ xs (v + 1)

/-! ## Predicates: preferences -/

/-- Rest of a key path below a group: `some rest` when `path` is `group`
followed by `rest`. -/
def stripGroup : List String → List String → Option (List String)
  | [], path => some path
  | g :: gs, p :: ps => if g = p then stripGroup gs ps else none
  | _ :: _, [] => none

/-- Each text once, at its first place. -/
def firstOccurrences : List String → List String
  | [] => []
  | x :: xs => x :: (firstOccurrences xs).filter (fun y => y ≠ x)

/-- Keys `QSettings::childKeys()` when the current group is `group`: the
keys stored directly in that group. The store lists its entries by key
path (group names, then the key), in the order `QSettings` enumerates
them. -/
def Preferences.childKeys (p : Preferences) (group : List String) : List String :=
  firstOccurrences (p.store.filterMap (fun e =>
    match stripGroup group e.1 with
    | some [k] => some k
    | _ => none))

/-- Groups `QSettings::childGroups()` when the current group is `group`:
the groups directly below it that hold a key. -/
def Preferences.childGroups (p : Preferences) (group : List String) : List String :=
  firstOccurrences (p.store.filterMap (fun e =>
    match stripGroup group e.1 with
    | some (g :: _ :: _) => some g
    | _ => none))

/-- The loops `foreach (auto k, ...) l.append(A(k))` of the preference
predicates; the results of `append` are not looked at. -/
def win_preference_loop : List String → PlTail → Frame → PlTail × Frame
  | [], l, σ => (l, σ)
  | k :: ks, l, σ =>
    let r := PlTail.append σ l (.atom k)
    win_preference_loop ks r.2.1 r.2.2

/-- Predicate `win_preference_groups(-Groups:list)`. The local
`Preferences p` reads the stored preferences and has no current group. -/
def win_preference_groups (A1 : PlTerm) (W : World) : Result :=
  let σ := Frame.initial [A1]
  match PlTail.new σ A1 with
  | .error e => ⟨.exception e, W, σ⟩
  | .ok l =>
    let r := win_preference_loop (W.preferences.childGroups []) l σ
    ⟨.TRUE, W, (PlTail.close r.2 r.1).2⟩

/-- Predicate `win_preference_keys(+Group, -Keys:list)`. The body builds
its `PlTail` on `PL_A1` and calls `p.childKeys()` on a `Preferences p`
that has no current group; `PL_A2` is not used. -/
def win_preference_keys (A1 A2 : PlTerm) (W : World) : Result :=
  let σ := Frame.initial [A1, A2]
  match PlTail.new σ A1 with
  | .error e => ⟨.exception e, W, σ⟩
  | .ok l =>
    let r := win_preference_loop (W.preferences.childKeys []) l σ
    ⟨.TRUE, W, (PlTail.close r.2 r.1).2⟩

/-! ## The order in which `search_widget` tests widgets -/

/-- The stack loop of `search_widget` as `search_stack`, also listing the
widgets `match` was called on, in call order. -/
def search_stack_log (cls : Nat → QClass) (matchFn : Nat → Bool) :
    Nat → List QObject → Option (List Nat × Option Nat)
  | 0, _ => none
  | _ + 1, [] => some ([], none)
  | fuel + 1, p :: s =>
    if matchFn p.ptr then some ([p.ptr], some p.ptr)
    else
      match search_stack_log cls matchFn fuel
        ((p.children.filter (fun c => (cls c.ptr).isWidgetType)).reverse ++ s) with
      | some r => some (p.ptr :: r.1, r.2)
      | none => none

/-- The loop over the top-level widgets as `search_from`, also listing the
widgets `match` was called on, in call order. -/
def search_from_log (cls : Nat → QClass) (matchFn : Nat → Bool) :
    List QObject → List Nat × Option Nat
  | [] => ([], none)
  | widget :: rest =>
    match search_stack_log cls matchFn (widget.size + 1) [widget] with
    | some (tested, some p) => (tested, some p)
    | some (tested, none) =>
      (tested ++ (search_from_log cls matchFn rest).1, (search_from_log cls matchFn rest).2)
    | none => search_from_log cls matchFn rest

/-- The widgets `search_widget` calls `match` on, in call order, and its
result. -/
def search_widget_log (W : World) (matchFn : Nat → Bool) : List Nat × Option Nat :=
  search_from_log W.cls matchFn W.topLevelWidgets

mutual
/-- Parent-first order of the widgets of a tree whose root is a widget: the
root, then the trees of its widget-type children, last child first. -/
def QObject.visit (cls : Nat → QClass) : QObject → List Nat
  | .mk p cs => p :: QObject.visitChildren cls cs
/-- Parent-first order of the trees of the widget-type members of a list of
children, last child first. -/
def QObject.visitChildren (cls : Nat → QClass) : List QObject → List Nat
  | [] => []
  | c :: cs =>
    QObject.visitChildren cls cs ++ (if (cls c.ptr).isWidgetType then QObject.visit cls c else [])
end

/-- Parent-first order of several trees whose roots are widgets, the trees
in list order. -/
def QObject.visitRoots (cls : Nat → QClass) : List QObject → List Nat
  | [] => []
  | w :: ws => QObject.visit cls w ++ QObject.visitRoots cls ws

/-- The order of the whole forest: top-level widgets in list order, each
before the widgets below it. -/
def World.visitOrder (W : World) : List Nat :=
  QObject.visitRoots W.cls W.topLevelWidgets

mutual
/-- The widget trees inside a tree whose root is a widget: the tree itself
and those below its widget-type children. -/
def QObject.subtrees (cls : Nat → QClass) : QObject → List QObject
  | .mk p cs => QObject.mk p cs :: QObject.subtreesList cls cs
/-- The widget trees below the widget-type members of a list of children. -/
def QObject.subtreesList (cls : Nat → QClass) : List QObject → List QObject
  | [] => []
  | c :: cs =>
    (if (cls c.ptr).isWidgetType then QObject.subtrees cls c else []) ++
      QObject.subtreesList cls cs
end

/-- The widget trees of several trees whose roots are widgets. -/
def QObject.subtreesOfRoots (cls : Nat → QClass) : List QObject → List QObject
  | [] => []
  | w :: ws => QObject.subtrees cls w ++ QObject.subtreesOfRoots cls ws

/-- Every widget of the forest together with the tree below it. -/
def World.forestTrees (W : World) : List QObject :=
  QObject.subtreesOfRoots W.cls W.topLevelWidgets

/-- The members of a list up to and including the first one for which the
predicate holds; the whole list when it holds for none. -/
def takeThrough (matchFn : Nat → Bool) : List Nat → List Nat
  | [] => []
  | x :: xs => if matchFn x then [x] else x :: takeThrough matchFn xs

/-! ## Setting a property and getting it back -/

/-- Window attributes of a freshly made widget. -/
def QWidgetState.initial : QWidgetState :=
  { windowTitle := "", width := 640, height := 480, x := 0, y := 0, visible := true,
    activated := 0, fontWidth := 8, fontHeight := 16, font := "", repaints := 0 }

/-- The integer property `maximumBlockCount`. -/
def maximumBlockCount : QMetaProperty :=
  { name := "maximumBlockCount", value := .int 0, isEnumType := false, isFlagType := false,
    enumerator := [], isWritable := true }

/-- The enumeration property `lineWrapMode`. -/
def lineWrapMode : QMetaProperty :=
  { name := "lineWrapMode", value := .int 1, isEnumType := true, isFlagType := false,
    enumerator := [("NoWrap", 0), ("WidgetWidth", 1)], isWritable := true }

/-- The boolean property `readOnly`. -/
def readOnly : QMetaProperty :=
  { name := "readOnly", value := .bool false, isEnumType := false, isFlagType := false,
    enumerator := [], isWritable := true }

/-- The string property `documentTitle`. -/
def documentTitle : QMetaProperty :=
  { name := "documentTitle", value := .string "", isEnumType := false, isFlagType := false,
    enumerator := [], isWritable := true }

/-- The integer property `blockCount`, which has no setter. -/
def blockCount : QMetaProperty :=
  { name := "blockCount", value := .int 1, isEnumType := false, isFlagType := false,
    enumerator := [], isWritable := false }

/-- An enumeration property one of whose keys has the value -1. -/
def engineStatus : QMetaProperty :=
  { name := "engineStatus", value := .int 0, isEnumType := true, isFlagType := false,
    enumerator := [("Unknown", -1), ("Idle", 0), ("Running", 1)], isWritable := true }

/-- An unsigned property holding the largest 32-bit value. -/
def serial : QMetaProperty :=
  { name := "serial", value := .uint 4294967295, isEnumType := false, isFlagType := false,
    enumerator := [], isWritable := true }

/-- Properties of the console of thread 7. The first six are properties of
a `ConsoleEdit`; the last two exercise kinds that `unify` handles. -/
def exampleProperties : List QMetaProperty :=
  [{ name := "updateRefreshRate", value := .int 100, isEnumType := false, isFlagType := false,
     enumerator := [], isWritable := true },
   maximumBlockCount, lineWrapMode, readOnly, documentTitle, blockCount, engineStatus, serial]

/-- A main window (1) framing the console of thread 7 (2) next to a plain
widget (3) that holds the console of thread 9 (4) below a non-widget
object (6), and a second top-level console (5) that no thread owns. -/
def exampleWorld : World :=
  { topLevelWidgets :=
      [QObject.mk 1 [QObject.mk 6 [], QObject.mk 2 [], QObject.mk 3 [QObject.mk 4 []]],
       QObject.mk 5 []]
    cls := fun p =>
      if p = 1 then .pqMainWindow
      else if p = 2 ∨ p = 4 ∨ p = 5 then .ConsoleEdit
      else if p = 3 then .OtherWidget
      else .NonWidget
    match_thread := fun p t => (p == 2 && t == 7) || (p == 4 && t == 9)
    widget := fun _ => QWidgetState.initial
    properties := fun p => if p = 2 then exampleProperties else []
    history := fun _ => []
    text := fun _ => ""
    html := fun _ => []
    int_requests := fun _ => 0
    posted := []
    new_console := []
    preferences := { store := [], console_font := "", ANSI_sequences := [] }
    streams := []
    heap := 100 }

/-- Answers of a platform with a 64-bit `long` where no image file loads
and every dialog is cancelled. -/
def exampleEnv : Env :=
  { writeq := fun _ => "_"
    longBits := 64
    intToDouble := fun _ => 0
    floatIsZero := fun b => b == 0
    imageLoads := fun _ => false
    mboxOk := true
    fileChoice := ""
    fontOk := false
    font := ""
    colorsAccepted := false
    customColors := []
    snewEncoding := .ENC_ISO_LATIN_1 }

/-- Stored preferences with one key outside any group and two keys in the
group `console`. -/
def examplePreferences : Preferences :=
  { store := [(["geometry"], "800x600"), (["console", "font"], "Courier"),
      (["console", "wrap"], "true")],
    console_font := "Courier", ANSI_sequences := [] }

/-- The example world with the example preferences stored. -/
def exampleWorldPrefs : World := { exampleWorld with preferences := examplePreferences }

/-- The example world with a dialog 3 that has the main window 1 as its
parent: as a window it is a top-level widget, as a child it is among the
children of 1, next to console 2. -/
def exampleWorldDialog : World :=
  { exampleWorld with
    topLevelWidgets := [QObject.mk 3 [], QObject.mk 1 [QObject.mk 3 [], QObject.mk 2 []]] }

/-! ## Lemmas on the object tree and the widget lookup -/

theorem QObject.sizeList_append (a b : List QObject) :
    QObject.sizeList (a ++ b) = QObject.sizeList a + QObject.sizeList b := by
  induction a with
  | nil => simp [QObject.sizeList]
  | cons x xs ih => simp [QObject.sizeList, ih]; omega

theorem QObject.sizeList_reverse (a : List QObject) :
    QObject.sizeList a.reverse = QObject.sizeList a := by
  induction a with
  | nil => simp
  | cons x xs ih => simp [QObject.sizeList, QObject.sizeList_append, ih]; omega

theorem QObject.sizeList_filter_le (f : QObject → Bool) (a : List QObject) :
    QObject.sizeList (a.filter f) ≤ QObject.sizeList a := by
  induction a with
  | nil => simp
  | cons x xs ih =>
    simp only [List.filter]
    split <;> simp [QObject.sizeList] <;> omega

theorem QObject.mem_widgetsOfRoots (cls : Nat → QClass) (l : List QObject) (q : Nat) :
    q ∈ QObject.widgetsOfRoots cls l ↔ ∃ w ∈ l, q ∈ QObject.widgets cls w := by
  induction l with
  | nil => simp [QObject.widgetsOfRoots]
  | cons x xs ih => simp [QObject.widgetsOfRoots, ih]

theorem QObject.mem_widgetsList (cls : Nat → QClass) (l : List QObject) (q : Nat) :
    q ∈ QObject.widgetsList cls l ↔
      ∃ c ∈ l, (cls c.ptr).isWidgetType = true ∧ q ∈ QObject.widgets cls c := by
  induction l with
  | nil => simp [QObject.widgetsList]
  | cons x xs ih =>
    simp only [QObject.widgetsList, List.mem_append, ih, List.mem_cons, exists_eq_or_imp]
    by_cases hx : (cls x.ptr).isWidgetType = true <;> simp [hx]

/-- Widgets reachable from the stack after the children of `p` were pushed:
those below the children of `p` and those of the rest of the stack. -/
theorem QObject.mem_widgetsOfRoots_push (cls : Nat → QClass) (cs s : List QObject) (q : Nat) :
    q ∈ QObject.widgetsOfRoots cls
        ((cs.filter (fun c => (cls c.ptr).isWidgetType)).reverse ++ s) ↔
      q ∈ QObject.widgetsList cls cs ∨ q ∈ QObject.widgetsOfRoots cls s := by
  simp only [QObject.mem_widgetsOfRoots, QObject.mem_widgetsList, List.mem_append,
    List.mem_reverse, List.mem_filter]
  constructor
  · rintro ⟨w, (⟨hw, hW⟩ | hw), hq⟩
    · exact Or.inl ⟨w, hw, hW, hq⟩
    · exact Or.inr ⟨w, hw, hq⟩
  · rintro (⟨w, hw, hW, hq⟩ | ⟨w, hw, hq⟩)
    · exact ⟨w, Or.inl ⟨hw, hW⟩, hq⟩
    · exact ⟨w, Or.inr hw, hq⟩

/-- Outcome of the stack loop, given fuel for every object on the stack:
the loop finishes, it reports a widget below the stack that matches, and it
reports none only when no widget below the stack matches. -/
theorem search_stack_spec (cls : Nat → QClass) (matchFn : Nat → Bool) :
    ∀ (fuel : Nat) (s : List QObject), QObject.sizeList s < fuel →
      (∃ p, search_stack cls matchFn fuel s = some (some p) ∧
          p ∈ QObject.widgetsOfRoots cls s ∧ matchFn p = true) ∨
      (search_stack cls matchFn fuel s = some none ∧
          ∀ p ∈ QObject.widgetsOfRoots cls s, matchFn p = false) := by
  intro fuel
  induction fuel with
  | zero => intro s h; omega
  | succ n ih =>
    intro s h
    cases s with
    | nil =>
      right
      simp [search_stack, QObject.widgetsOfRoots]
    | cons p rest =>
      obtain ⟨q, cs⟩ := p
      by_cases hm : matchFn q = true
      · left
        refine ⟨q, ?_, ?_, hm⟩
        · simp [search_stack, QObject.ptr, hm]
        · simp [QObject.widgetsOfRoots, QObject.widgets]
      · have hsz : QObject.sizeList
            ((cs.filter (fun c => (cls c.ptr).isWidgetType)).reverse ++ rest) < n := by
          have h1 := QObject.sizeList_filter_le (fun c => (cls c.ptr).isWidgetType) cs
          simp only [QObject.sizeList, QObject.size] at h
          simp only [QObject.sizeList_append, QObject.sizeList_reverse]
          omega
        have hstep : search_stack cls matchFn (n + 1) (QObject.mk q cs :: rest) =
            search_stack cls matchFn n
              ((cs.filter (fun c => (cls c.ptr).isWidgetType)).reverse ++ rest) := by
          simp [search_stack, QObject.ptr, QObject.children, hm]
        have hmem : ∀ x, x ∈ QObject.widgetsOfRoots cls (QObject.mk q cs :: rest) ↔
            x = q ∨ x ∈ QObject.widgetsOfRoots cls
              ((cs.filter (fun c => (cls c.ptr).isWidgetType)).reverse ++ rest) := by
          intro x
          rw [QObject.mem_widgetsOfRoots_push]
          simp [QObject.widgetsOfRoots, QObject.widgets, or_assoc]
        rcases ih _ hsz with ⟨p, hp, hin, hpm⟩ | ⟨hnone, hall⟩
        · left
          exact ⟨p, by rw [hstep, hp], (hmem p).2 (Or.inr hin), hpm⟩
        · right
          refine ⟨by rw [hstep, hnone], ?_⟩
          intro x hx
          rcases (hmem x).1 hx with rfl | hx
          · simpa using hm
          · exact hall x hx

/-- The stack loop of `search_widget` always finishes within the turns it is
given. -/
theorem search_stack_total (cls : Nat → QClass) (matchFn : Nat → Bool) (widget : QObject) :
    (search_stack cls matchFn (widget.size + 1) [widget]).isSome = true := by
  have h : QObject.sizeList [widget] < widget.size + 1 := by
    simp [QObject.sizeList]
  rcases search_stack_spec cls matchFn _ _ h with ⟨p, hp, _⟩ | ⟨hn, _⟩
  · simp [hp]
  · simp [hn]

/-- Outcome of the loop over the top-level widgets. -/
theorem search_from_spec (cls : Nat → QClass) (matchFn : Nat → Bool) (tops : List QObject) :
    (∃ p, search_from cls matchFn tops = some p ∧
        p ∈ QObject.widgetsOfRoots cls tops ∧ matchFn p = true) ∨
    (search_from cls matchFn tops = none ∧
        ∀ p ∈ QObject.widgetsOfRoots cls tops, matchFn p = false) := by
  induction tops with
  | nil =>
    right
    simp [search_from, QObject.widgetsOfRoots]
  | cons w ws ih =>
    have h : QObject.sizeList [w] < w.size + 1 := by simp [QObject.sizeList]
    rcases search_stack_spec cls matchFn _ _ h with ⟨p, hp, hin, hm⟩ | ⟨hn, hall⟩
    · left
      refine ⟨p, by simp [search_from, hp], ?_, hm⟩
      simp only [QObject.widgetsOfRoots, List.append_nil] at hin
      simp [QObject.widgetsOfRoots, hin]
    · have hstep : search_from cls matchFn (w :: ws) = search_from cls matchFn ws := by
        simp [search_from, hn]
      simp only [QObject.widgetsOfRoots, List.append_nil] at hall
      rcases ih with ⟨p, hp, hin, hm⟩ | ⟨hnone, hall2⟩
      · left
        exact ⟨p, by rw [hstep, hp], by simp [QObject.widgetsOfRoots, hin], hm⟩
      · right
        refine ⟨by rw [hstep, hnone], ?_⟩
        intro x hx
        simp only [QObject.widgetsOfRoots, List.mem_append] at hx
        rcases hx with hx | hx
        · exact hall x hx
        · exact hall2 x hx

/-- Postcondition of `search_widget`: a widget of the forest that matches, or
none when no widget of the forest matches. -/
theorem search_widget_spec (W : World) (matchFn : Nat → Bool) :
    (∃ p, search_widget W matchFn = some p ∧ p ∈ W.forest ∧ matchFn p = true) ∨
    (search_widget W matchFn = none ∧ ∀ p ∈ W.forest, matchFn p = false) :=
  search_from_spec W.cls matchFn W.topLevelWidgets

/-! ## Lemmas on the stream table -/

theorem modify_append_right {α : Type} (f : α → α) (l r : List α) (k : Nat) :
    List.modify f (l.length + k) (l ++ r) = l ++ List.modify f k r := by
  induction l with
  | nil => simp
  | cons x xs ih =>
    have : (x :: xs).length + k = (xs.length + k) + 1 := by simp; omega
    rw [this]
    simp [ih]

/-- The stream table after `win_open_console` found a console: the three
new streams follow the old ones; they carry the flags given to `Snew`, the
one handle, the one function table, the position buffer of the input
stream and the encoding UTF-8, and they are closed exactly when one of the
three bindings failed. -/
theorem win_open_console_streams (E : Env) (A1 A2 A3 A4 A5 : PlTerm) (W : World) (ce : Nat)
    (h : console_peek_first W = some ce) :
    ∃ closed : Bool,
      (win_open_console E A1 A2 A3 A4 A5 W).world.streams = W.streams ++
        [{ handle := W.heap, flags := [.SIO_INPUT, .SIO_LBUF] ++ STREAM_COMMON,
           functions := rlc_functions, position := some W.streams.length,
           encoding := .ENC_UTF8, closed := closed },
         { handle := W.heap, flags := [.SIO_OUTPUT, .SIO_LBUF] ++ STREAM_COMMON,
           functions := rlc_functions, position := some W.streams.length,
           encoding := .ENC_UTF8, closed := closed },
         { handle := W.heap, flags := [.SIO_OUTPUT, .SIO_NBUF] ++ STREAM_COMMON,
           functions := rlc_functions, position := some W.streams.length,
           encoding := .ENC_UTF8, closed := closed }] ∧
      ((win_open_console E A1 A2 A3 A4 A5 W).status = .TRUE ∧ closed = false ∧
          ((Frame.initial [A1, A2, A3, A4, A5]).unifyAtomic A2
            (.stream W.streams.length)).1 = true ∧
          (((Frame.initial [A1, A2, A3, A4, A5]).unifyAtomic A2
            (.stream W.streams.length)).2.unifyAtomic A3
              (.stream (W.streams.length + 1))).1 = true ∧
          ((((Frame.initial [A1, A2, A3, A4, A5]).unifyAtomic A2
            (.stream W.streams.length)).2.unifyAtomic A3
              (.stream (W.streams.length + 1))).2.unifyAtomic A4
                (.stream (W.streams.length + 2))).1 = true
        ∨
       (win_open_console E A1 A2 A3 A4 A5 W).status = .FALSE ∧ closed = true ∧
          ¬(((Frame.initial [A1, A2, A3, A4, A5]).unifyAtomic A2
            (.stream W.streams.length)).1 = true ∧
          (((Frame.initial [A1, A2, A3, A4, A5]).unifyAtomic A2
            (.stream W.streams.length)).2.unifyAtomic A3
              (.stream (W.streams.length + 1))).1 = true ∧
          ((((Frame.initial [A1, A2, A3, A4, A5]).unifyAtomic A2
            (.stream W.streams.length)).2.unifyAtomic A3
              (.stream (W.streams.length + 1))).2.unifyAtomic A4
                (.stream (W.streams.length + 2))).1 = true)) := by
  have m0 := fun (f : IOSTREAM → IOSTREAM) (r : List IOSTREAM) =>
    modify_append_right f W.streams r 0
  have m1 := fun (f : IOSTREAM → IOSTREAM) (r : List IOSTREAM) =>
    modify_append_right f W.streams r 1
  have m2 := fun (f : IOSTREAM → IOSTREAM) (r : List IOSTREAM) =>
    modify_append_right f W.streams r 2
  simp only [Nat.add_zero] at m0
  simp only [win_open_console, h, Snew, World.modifyStream, Sclose, List.length_append,
    List.length_singleton, List.append_assoc, List.singleton_append]
  by_cases h1 : ((Frame.initial [A1, A2, A3, A4, A5]).unifyAtomic A2
      (.stream W.streams.length)).1 = true
  · by_cases h2 : (((Frame.initial [A1, A2, A3, A4, A5]).unifyAtomic A2
        (.stream W.streams.length)).2.unifyAtomic A3 (.stream (W.streams.length + 1))).1 = true
    · by_cases h3 : ((((Frame.initial [A1, A2, A3, A4, A5]).unifyAtomic A2
          (.stream W.streams.length)).2.unifyAtomic A3
            (.stream (W.streams.length + 1))).2.unifyAtomic A4
              (.stream (W.streams.length + 2))).1 = true
      · refine ⟨false, ?_, Or.inl ?_⟩
        · simp [h1, h2, h3, m0, m1, m2, STREAM_COMMON]
        · simp [h1, h2, h3]
      · refine ⟨true, ?_, Or.inr ?_⟩
        · simp [h1, h2, h3, m0, m1, m2, STREAM_COMMON]
        · simp [h1, h2, h3]
    · refine ⟨true, ?_, Or.inr ?_⟩
      · simp [h1, h2, m0, m1, m2, STREAM_COMMON]
      · simp [h1, h2]
  · refine ⟨true, ?_, Or.inr ?_⟩
    · simp [h1, m0, m1, m2, STREAM_COMMON]
    · simp [h1]

/-! ## Lemmas on terms and the option loop of `win_window_pos` -/

theorem Frame.deref_atom (σ : Frame) (fuel : Nat) (s : String) :
    σ.deref fuel (.atom s) = .atom s := by
  cases fuel <;> simp [Frame.deref]

theorem Frame.deref_nil (σ : Frame) (fuel : Nat) : σ.deref fuel .nil = .nil := by
  cases fuel <;> simp [Frame.deref]

theorem Frame.deref_cons (σ : Frame) (fuel : Nat) (h t : PlTerm) :
    σ.deref fuel (.cons h t) = .cons h t := by
  cases fuel <;> simp [Frame.deref]

theorem Frame.resolve_atom (σ : Frame) (fuel : Nat) (s : String) :
    σ.resolve fuel (.atom s) = .atom s := by
  cases fuel <;> simp [Frame.resolve, Frame.walk, Frame.deref]

theorem Frame.walk_unbound (σ : Frame) (v : Nat) (h : σ.lookup v = none) :
    σ.walk (.var v) = .var v := by
  simp [Frame.walk, Frame.deref, h]

theorem Frame.lookup_none_of_lt (σ : Frame) (v : Nat) (h : ∀ b ∈ σ.bindings, b.1 < v) :
    σ.lookup v = none := by
  simp only [Frame.lookup, Option.map_eq_none', List.find?_eq_none]
  intro b hb hv
  have := h b hb
  simp only [beq_iff_eq] at hv
  omega

/-- A frame that holds a list of atoms below `v` shows it as the value of
`v`, given fuel for every cell. -/
theorem Frame.resolve_of_holdsList (τ : Frame) :
    ∀ (xs : List String) (v fuel : Nat),
      τ.holdsList (xs.map PlTerm.atom) v → xs.length + 1 ≤ fuel →
      τ.resolve fuel (.var v) = PlTerm.list (xs.map PlTerm.atom) := by
  intro xs
  induction xs with
  | nil =>
    intro v fuel h hf
    obtain ⟨f, rfl⟩ : ∃ f, fuel = f + 1 := ⟨fuel - 1, by omega⟩
    simp only [List.map_nil, Frame.holdsList] at h
    simp [Frame.resolve, Frame.walk, Frame.deref, h, Frame.deref_nil, PlTerm.list,
      PlTerm.listWithTail]
  | cons x xs ih =>
    intro v fuel h hf
    obtain ⟨f, rfl⟩ : ∃ f, fuel = f + 1 := ⟨fuel - 1, by omega⟩
    simp only [List.map_cons, Frame.holdsList] at h
    have hrec := ih (v + 1) f h.2 (by simp at hf; omega)
    simp only [PlTerm.list] at hrec
    simp [Frame.resolve, Frame.walk, Frame.deref, h.1, Frame.deref_cons, PlTerm.list,
      PlTerm.listWithTail, Frame.resolve_atom, hrec]

/-- The append loop of `$rl_history` on an unbound tail `v`, followed by
`close`: the frame gains one binding per line and one for the end, all for
variables from `v` on, and then holds the list of the lines below `v`. -/
theorem rl_history_loop_holdsList :
    ∀ (xs : List String) (σ : Frame) (v : Nat),
      σ.fresh = v + 1 → (∀ b ∈ σ.bindings, b.1 < v) →
      ∃ new : List (Nat × PlTerm),
        (PlTail.close (rl_history_loop xs ⟨.var v⟩ σ).2
          (rl_history_loop xs ⟨.var v⟩ σ).1).2.bindings = new ++ σ.bindings ∧
        new.length = xs.length + 1 ∧
        (∀ b ∈ new, v ≤ b.1) ∧
        (PlTail.close (rl_history_loop xs ⟨.var v⟩ σ).2
          (rl_history_loop xs ⟨.var v⟩ σ).1).2.holdsList (xs.map PlTerm.atom) v := by
  intro xs
  induction xs with
  | nil =>
    intro σ v _ hlt
    have hw := Frame.walk_unbound σ v (Frame.lookup_none_of_lt σ v hlt)
    refine ⟨[(v, .nil)], ?_, rfl, ?_, ?_⟩
    · simp [rl_history_loop, PlTail.close, Frame.unifyAtomic, hw, Frame.bind]
    · simp
    · simp [rl_history_loop, PlTail.close, Frame.unifyAtomic, hw, Frame.bind,
        Frame.holdsList, Frame.lookup]
  | cons x xs ih =>
    intro σ v hfresh hlt
    have hw := Frame.walk_unbound σ v (Frame.lookup_none_of_lt σ v hlt)
    have hstep : rl_history_loop (x :: xs) ⟨.var v⟩ σ =
        rl_history_loop xs ⟨.var (v + 1)⟩
          { bindings := (v, .cons (.atom x) (.var (v + 1))) :: σ.bindings, fresh := v + 2 } := by
      simp [rl_history_loop, PlTail.append, hw, hfresh]
    rw [hstep]
    obtain ⟨new, hb, hlen, hge, hholds⟩ := ih
      { bindings := (v, .cons (.atom x) (.var (v + 1))) :: σ.bindings, fresh := v + 2 } (v + 1)
      rfl (by
        intro b hb
        simp only [List.mem_cons] at hb
        rcases hb with rfl | hb
        · simp
        · have := hlt b hb
          omega)
    refine ⟨new ++ [(v, .cons (.atom x) (.var (v + 1)))], ?_, ?_, ?_, ?_⟩
    · rw [hb]
      simp
    · simp [hlen]
    · intro b hb
      simp only [List.mem_append, List.mem_singleton] at hb
      rcases hb with hb | rfl
      · have := hge b hb
        omega
      · simp
    · refine ⟨?_, hholds⟩
      simp only [Frame.lookup, hb]
      rw [List.find?_append]
      have hnone : List.find? (fun b => b.1 == v) new = none := by
        simp only [List.find?_eq_none, beq_iff_eq]
        intro b hb hv
        have := hge b hb
        omega
      simp [hnone]

/-- The lookup of the console does not depend on the histories. -/
theorem console_by_thread_add_history_line (c : Nat) (line : String) (W : World) (thid : Int) :
    console_by_thread (add_history_line c line W) thid = console_by_thread W thid := rfl

/-- The test `*line` holds exactly when the text cut at its first NUL is
not empty. -/
theorem firstWChar_ne_iff (line : String) :
    firstWChar line ≠ Char.ofNat 0 ↔ fromWCharArray line ≠ "" := by
  obtain ⟨l⟩ := line
  cases l with
  | nil => simp [firstWChar, fromWCharArray]
  | cons x xs =>
    by_cases hx : x = Char.ofNat 0
    · simp [firstWChar, fromWCharArray, hx, List.takeWhile]
    · have h1 : ∀ l : List Char, String.mk (x :: l) ≠ "" := by
        intro l h
        have := congrArg String.data h
        simp at this
      simp only [firstWChar, fromWCharArray, List.headD_cons, List.takeWhile, ne_eq, hx,
        not_false_eq_true, decide_True, true_iff]
      exact h1 _

/-- The history of the caller's console after a sequence of
`rl_add_history` calls: the lines, each cut at its first NUL, are added in
call order unless empty, and the caller still owns the console. -/
theorem rl_add_history_calls_history (E : Env) (thid : Int) (c : Nat) :
    ∀ (lines : List PlTerm) (W : World), console_by_thread W thid = some c →
      console_by_thread (rl_add_history_calls E thid lines W) thid = some c ∧
      (rl_add_history_calls E thid lines W).history c =
        W.history c ++ (lines.map (historyLine E)).filter (fun l => decide (l ≠ "")) := by
  intro lines
  induction lines with
  | nil => intro W hc; simp [rl_add_history_calls, hc]
  | cons a rest ih =>
    intro W hc
    by_cases hl : historyLine E a = ""
    · have hfirst : ¬ firstWChar (WCP E.writeq (Frame.initial [a]) a) ≠ Char.ofNat 0 := by
        rw [firstWChar_ne_iff]
        exact fun h => h hl
      have hstep : (rl_add_history E thid a W).world = W := by
        simp only [rl_add_history, hc, if_neg hfirst]
      simp only [rl_add_history_calls, hstep]
      obtain ⟨h1, h2⟩ := ih W hc
      refine ⟨h1, ?_⟩
      rw [h2]
      simp [hl]
    · have hfirst : firstWChar (WCP E.writeq (Frame.initial [a]) a) ≠ Char.ofNat 0 := by
        rw [firstWChar_ne_iff]
        exact hl
      have hstep : (rl_add_history E thid a W).world =
          add_history_line c (historyLine E a) W := by
        simp only [rl_add_history, hc, if_pos hfirst]
        rfl
      simp only [rl_add_history_calls, hstep]
      obtain ⟨h1, h2⟩ := ih (add_history_line c (historyLine E a) W)
        (by rw [console_by_thread_add_history_line]; exact hc)
      refine ⟨h1, ?_⟩
      rw [h2]
      simp [add_history_line, hl]

/-! ## Lemmas on the property bridge -/

theorem takeThrough_append_of_none (matchFn : Nat → Bool) (a b : List Nat)
    (h : ∀ x ∈ a, matchFn x = false) :
    takeThrough matchFn (a ++ b) = a ++ takeThrough matchFn b := by
  induction a with
  | nil => rfl
  | cons x xs ih =>
    have hx : matchFn x = false := h x (List.mem_cons_self x xs)
    have hxs : ∀ y ∈ xs, matchFn y = false := fun y hy => h y (List.mem_cons_of_mem x hy)
    simp [takeThrough, hx, ih hxs]

theorem takeThrough_append_of_some (matchFn : Nat → Bool) (a b : List Nat) (p : Nat)
    (h : a.find? matchFn = some p) :
    takeThrough matchFn (a ++ b) = takeThrough matchFn a := by
  induction a with
  | nil => simp at h
  | cons x xs ih =>
    by_cases hx : matchFn x = true
    · simp [takeThrough, hx]
    · have hx2 : matchFn x = false := by simpa using hx
      simp only [List.find?, hx2] at h
      simp [takeThrough, hx2, ih h]

theorem takeThrough_of_none (matchFn : Nat → Bool) (a : List Nat)
    (h : a.find? matchFn = none) : takeThrough matchFn a = a := by
  induction a with
  | nil => rfl
  | cons x xs ih =>
    by_cases hx : matchFn x = true
    · simp [List.find?, hx] at h
    · have hx2 : matchFn x = false := by simpa using hx
      simp only [List.find?, hx2] at h
      simp [takeThrough, hx2, ih h]

theorem takeThrough_prefix (matchFn : Nat → Bool) (a : List Nat) :
    takeThrough matchFn a <+: a := by
  induction a with
  | nil => exact List.prefix_refl []
  | cons x xs ih =>
    by_cases hx : matchFn x = true
    · simp only [takeThrough, hx, if_true]
      exact ⟨xs, rfl⟩
    · simp only [takeThrough, hx]
      obtain ⟨t, ht⟩ := ih
      exact ⟨t, by simp [ht]⟩

theorem QObject.visitRoots_append (cls : Nat → QClass) (a b : List QObject) :
    QObject.visitRoots cls (a ++ b) = QObject.visitRoots cls a ++ QObject.visitRoots cls b := by
  induction a with
  | nil => rfl
  | cons x xs ih => simp [QObject.visitRoots, ih]

/-- The trees pushed for the children of a widget are visited in the order
`visitChildren` gives. -/
theorem QObject.visitRoots_push (cls : Nat → QClass) (cs : List QObject) :
    QObject.visitRoots cls ((cs.filter (fun c => (cls c.ptr).isWidgetType)).reverse) =
      QObject.visitChildren cls cs := by
  induction cs with
  | nil => rfl
  | cons c cs ih =>
    by_cases hc : (cls c.ptr).isWidgetType = true
    · simp [List.filter, hc, QObject.visitRoots_append, ih, QObject.visitChildren,
        QObject.visitRoots]
    · simp [List.filter, hc, ih, QObject.visitChildren]

/-- The stack loop, given fuel for every object on the stack, tests the
widgets below the stack in parent-first order up to and including the
first that matches, and returns that one. -/
theorem search_stack_log_spec (cls : Nat → QClass) (matchFn : Nat → Bool) :
    ∀ (fuel : Nat) (s : List QObject), QObject.sizeList s < fuel →
      search_stack_log cls matchFn fuel s =
        some (takeThrough matchFn (QObject.visitRoots cls s),
          (QObject.visitRoots cls s).find? matchFn) := by
  intro fuel
  induction fuel with
  | zero => intro s h; omega
  | succ n ih =>
    intro s h
    cases s with
    | nil => rfl
    | cons p rest =>
      obtain ⟨q, cs⟩ := p
      by_cases hm : matchFn q = true
      · simp [search_stack_log, QObject.ptr, hm, QObject.visitRoots, QObject.visit, takeThrough]
      · have hm2 : matchFn q = false := by simpa using hm
        have hsz : QObject.sizeList
            ((cs.filter (fun c => (cls c.ptr).isWidgetType)).reverse ++ rest) < n := by
          have h1 := QObject.sizeList_filter_le (fun c => (cls c.ptr).isWidgetType) cs
          simp only [QObject.sizeList, QObject.size] at h
          simp only [QObject.sizeList_append, QObject.sizeList_reverse]
          omega
        have hrec := ih _ hsz
        rw [QObject.visitRoots_append, QObject.visitRoots_push] at hrec
        have hstep : search_stack_log cls matchFn (n + 1) (QObject.mk q cs :: rest) =
            match search_stack_log cls matchFn n
              ((cs.filter (fun c => (cls c.ptr).isWidgetType)).reverse ++ rest) with
            | some r => some (q :: r.1, r.2)
            | none => none := by
          simp [search_stack_log, QObject.ptr, QObject.children, hm2]
        rw [hstep, hrec]
        simp [QObject.visitRoots, QObject.visit, takeThrough, hm2]

/-- The logging stack loop returns what `search_stack` returns. -/
theorem search_stack_log_result (cls : Nat → QClass) (matchFn : Nat → Bool) :
    ∀ (fuel : Nat) (s : List QObject),
      (search_stack_log cls matchFn fuel s).map Prod.snd = search_stack cls matchFn fuel s := by
  intro fuel
  induction fuel with
  | zero => intro s; rfl
  | succ n ih =>
    intro s
    cases s with
    | nil => rfl
    | cons p rest =>
      by_cases hm : matchFn p.ptr = true
      · simp [search_stack_log, search_stack, hm]
      · have hrec := ih ((p.children.filter (fun c => (cls c.ptr).isWidgetType)).reverse ++ rest)
        simp only [search_stack_log, search_stack, hm]
        rw [← hrec]
        cases search_stack_log cls matchFn n
          ((p.children.filter (fun c => (cls c.ptr).isWidgetType)).reverse ++ rest) <;> simp

/-- The loop over the top-level widgets tests the widgets of the forest in
parent-first order, top-level widgets in list order, up to and including
the first that matches, and returns that one. -/
theorem search_from_log_spec (cls : Nat → QClass) (matchFn : Nat → Bool) (tops : List QObject) :
    search_from_log cls matchFn tops =
      (takeThrough matchFn (QObject.visitRoots cls tops),
        (QObject.visitRoots cls tops).find? matchFn) := by
  induction tops with
  | nil => rfl
  | cons w ws ih =>
    have h : QObject.sizeList [w] < w.size + 1 := by simp [QObject.sizeList]
    have hs := search_stack_log_spec cls matchFn _ _ h
    simp only [QObject.visitRoots, List.append_nil] at hs
    cases hf : (QObject.visit cls w).find? matchFn with
    | some p =>
      rw [hf] at hs
      simp only [search_from_log, hs, QObject.visitRoots]
      rw [takeThrough_append_of_some matchFn _ _ p hf, List.find?_append, hf]
      rfl
    | none =>
      rw [hf] at hs
      have hall : ∀ x ∈ QObject.visit cls w, matchFn x = false := by
        intro x hx
        have := List.find?_eq_none.1 hf x hx
        simpa using this
      simp only [search_from_log, hs, ih, QObject.visitRoots]
      rw [takeThrough_of_none matchFn _ hf, takeThrough_append_of_none matchFn _ _ hall,
        List.find?_append, hf]
      rfl

/-- The logging loop over the top-level widgets returns what `search_from`
returns. -/
theorem search_from_log_result (cls : Nat → QClass) (matchFn : Nat → Bool)
    (tops : List QObject) :
    (search_from_log cls matchFn tops).2 = search_from cls matchFn tops := by
  induction tops with
  | nil => rfl
  | cons w ws ih =>
    have hr := search_stack_log_result cls matchFn (w.size + 1) [w]
    cases hl : search_stack_log cls matchFn (w.size + 1) [w] with
    | none =>
      rw [hl] at hr
      simp only [Option.map_none'] at hr
      simp [search_from_log, search_from, hl, ← hr, ih]
    | some r =>
      obtain ⟨tested, res⟩ := r
      rw [hl] at hr
      simp only [Option.map_some'] at hr
      cases res with
      | none => simp [search_from_log, search_from, hl, ← hr, ih]
      | some p => simp [search_from_log, search_from, hl, ← hr]

mutual
/-- The parent-first order of a tree lists the widgets of the tree. -/
theorem QObject.visit_perm (cls : Nat → QClass) :
    (t : QObject) → (QObject.visit cls t).Perm (QObject.widgets cls t)
  | .mk p cs => by
    simp only [QObject.visit, QObject.widgets]
    exact List.Perm.cons p (QObject.visitChildren_perm cls cs)
/-- The parent-first order of the children lists the widgets below them. -/
theorem QObject.visitChildren_perm (cls : Nat → QClass) :
    (cs : List QObject) → (QObject.visitChildren cls cs).Perm (QObject.widgetsList cls cs)
  | [] => by simp [QObject.visitChildren, QObject.widgetsList]
  | c :: cs => by
    simp only [QObject.visitChildren, QObject.widgetsList]
    refine List.Perm.trans List.perm_append_comm ?_
    refine List.Perm.append ?_ (QObject.visitChildren_perm cls cs)
    by_cases hc : (cls c.ptr).isWidgetType = true
    · simp only [hc, if_true]
      exact QObject.visit_perm cls c
    · simp [hc]
end

theorem QObject.visitRoots_perm (cls : Nat → QClass) (tops : List QObject) :
    (QObject.visitRoots cls tops).Perm (QObject.widgetsOfRoots cls tops) := by
  induction tops with
  | nil => exact List.Perm.refl _
  | cons w ws ih =>
    simp only [QObject.visitRoots, QObject.widgetsOfRoots]
    exact List.Perm.append (QObject.visit_perm cls w) ih

mutual
/-- The widget trees of a tree are rooted at the widgets of the tree. -/
theorem QObject.subtrees_ptr (cls : Nat → QClass) :
    (t : QObject) → (QObject.subtrees cls t).map QObject.ptr = QObject.widgets cls t
  | .mk p cs => by
    simp only [QObject.subtrees, QObject.widgets, List.map_cons, QObject.ptr]
    rw [QObject.subtreesList_ptr cls cs]
/-- The widget trees below the children are rooted at the widgets below
them. -/
theorem QObject.subtreesList_ptr (cls : Nat → QClass) :
    (cs : List QObject) →
      (QObject.subtreesList cls cs).map QObject.ptr = QObject.widgetsList cls cs
  | [] => by simp [QObject.subtreesList, QObject.widgetsList]
  | c :: cs => by
    simp only [QObject.subtreesList, QObject.widgetsList, List.map_append]
    rw [QObject.subtreesList_ptr cls cs]
    by_cases hc : (cls c.ptr).isWidgetType = true
    · simp only [hc, if_true]
      rw [QObject.subtrees_ptr cls c]
    · simp [hc]
end

theorem QObject.subtreesOfRoots_ptr (cls : Nat → QClass) (tops : List QObject) :
    (QObject.subtreesOfRoots cls tops).map QObject.ptr = QObject.widgetsOfRoots cls tops := by
  induction tops with
  | nil => rfl
  | cons w ws ih =>
    simp only [QObject.subtreesOfRoots, QObject.widgetsOfRoots, List.map_append, ih,
      QObject.subtrees_ptr]

mutual
/-- Inside the parent-first order of a tree, the order of each widget tree
it contains stands in one piece. -/
theorem QObject.visit_subtree (cls : Nat → QClass) :
    (t : QObject) → ∀ u ∈ QObject.subtrees cls t,
      ∃ A B, QObject.visit cls t = A ++ QObject.visit cls u ++ B
  | .mk p cs => by
    intro u hu
    simp only [QObject.subtrees, List.mem_cons] at hu
    rcases hu with rfl | hu
    · exact ⟨[], [], by simp⟩
    · obtain ⟨A, B, h⟩ := QObject.visitChildren_subtree cls cs u hu
      exact ⟨p :: A, B, by simp [QObject.visit, h]⟩
/-- Inside the parent-first order of the children, the order of each
widget tree below them stands in one piece. -/
theorem QObject.visitChildren_subtree (cls : Nat → QClass) :
    (cs : List QObject) → ∀ u ∈ QObject.subtreesList cls cs,
      ∃ A B, QObject.visitChildren cls cs = A ++ QObject.visit cls u ++ B
  | [] => by
    intro u hu
    simp [QObject.subtreesList] at hu
  | c :: cs => by
    intro u hu
    simp only [QObject.subtreesList, List.mem_append] at hu
    rcases hu with hu | hu
    · by_cases hc : (cls c.ptr).isWidgetType = true
      · simp only [hc, if_true] at hu
        obtain ⟨A, B, h⟩ := QObject.visit_subtree cls c u hu
        exact ⟨QObject.visitChildren cls cs ++ A, B, by simp [QObject.visitChildren, hc, h]⟩
      · simp [hc] at hu
    · obtain ⟨A, B, h⟩ := QObject.visitChildren_subtree cls cs u hu
      exact ⟨A, B ++ (if (cls c.ptr).isWidgetType then QObject.visit cls c else []),
        by simp [QObject.visitChildren, h]⟩
end

theorem QObject.visitRoots_subtree (cls : Nat → QClass) (tops : List QObject) :
    ∀ u ∈ QObject.subtreesOfRoots cls tops,
      ∃ A B, QObject.visitRoots cls tops = A ++ QObject.visit cls u ++ B := by
  induction tops with
  | nil =>
    intro u hu
    simp [QObject.subtreesOfRoots] at hu
  | cons w ws ih =>
    intro u hu
    simp only [QObject.subtreesOfRoots, List.mem_append] at hu
    rcases hu with hu | hu
    · obtain ⟨A, B, h⟩ := QObject.visit_subtree cls w u hu
      exact ⟨A, B ++ QObject.visitRoots cls ws, by simp [QObject.visitRoots, h]⟩
    · obtain ⟨A, B, h⟩ := ih u hu
      exact ⟨QObject.visit cls w ++ A, B, by simp [QObject.visitRoots, h]⟩

theorem takeThrough_of_some (matchFn : Nat → Bool) (a : List Nat) (q : Nat)
    (h : a.find? matchFn = some q) :
    ∃ pre, takeThrough matchFn a = pre ++ [q] ∧ (∀ x ∈ pre, matchFn x = false) ∧
      matchFn q = true := by
  induction a with
  | nil => simp at h
  | cons x xs ih =>
    by_cases hx : matchFn x = true
    · simp only [List.find?, hx, Option.some.injEq] at h
      subst h
      exact ⟨[], by simp [takeThrough, hx], by simp, hx⟩
    · have hx2 : matchFn x = false := by simpa using hx
      simp only [List.find?, hx2] at h
      obtain ⟨pre, h1, h2, h3⟩ := ih h
      refine ⟨x :: pre, by simp [takeThrough, hx2, h1], ?_, h3⟩
      intro y hy
      simp only [List.mem_cons] at hy
      rcases hy with rfl | hy
      · exact hx2
      · exact h2 y hy

theorem QObject.visit_eq (cls : Nat → QClass) (t : QObject) :
    QObject.visit cls t = t.ptr :: QObject.visitChildren cls t.children := by
  cases t
  rfl

/-- In the example world the search for any console tests the main
window 1, then its last child 3, then console 4 below it, and stops there:
console 2, an earlier child of 1, and the top-level console 5 are not
tested. -/
theorem search_widget_log_example :
    search_widget_log exampleWorld (fun p => (exampleWorld.cls p).isConsoleEdit) =
      ([1, 3, 4], some 4) ∧
    exampleWorld.visitOrder = [1, 3, 4, 2, 5] ∧
    exampleWorld.forest = [1, 2, 3, 4, 5] := by
  refine ⟨by decide, by decide, by decide⟩

/-- In a list without repetition that reads `A`, then `p`, then `D`, then
`B`, a prefix that holds a member of `D` reads `A`, then `p`, and holds
that member after `p`. -/
theorem prefix_parent_first (L tested A D B : List Nat) (p d : Nat)
    (hnd : L.Nodup) (hpre : tested <+: L) (hL : L = A ++ (p :: D) ++ B)
    (hd : d ∈ D) (ht : d ∈ tested) :
    ∃ post, tested = A ++ p :: post ∧ d ∈ post ∧ d ∉ A := by
  obtain ⟨s, hs⟩ := hpre
  have hL2 : L = A ++ (p :: (D ++ B)) := by rw [hL]; simp
  rw [hL2] at hnd
  have hdis := List.nodup_append.1 hnd
  have hdA : d ∉ A := by
    intro hA
    exact hdis.2.2 hA (List.mem_cons_of_mem p (List.mem_append_left B hd))
  have hdp : d ≠ p := by
    intro h
    have := (List.nodup_cons.1 hdis.2.1).1
    exact this (h ▸ List.mem_append_left B hd)
  rw [hL2] at hs
  rcases List.append_eq_append_iff.1 hs with ⟨a', hA, _⟩ | ⟨c', hc, hR⟩
  · exact absurd (hA ▸ List.mem_append_left a' ht) hdA
  · cases c' with
    | nil =>
      simp only [List.append_nil] at hc
      exact absurd (hc ▸ ht) hdA
    | cons x c'' =>
      simp only [List.cons_append, List.cons.injEq] at hR
      obtain ⟨hx, _⟩ := hR
      subst hx
      refine ⟨c'', hc, ?_, hdA⟩
      rw [hc] at ht
      simp only [List.mem_append, List.mem_cons] at ht
      rcases ht with h | h | h
      · exact absurd h hdA
      · exact absurd h hdp
      · exact h

/-! ## The claims -/

/-- C1: when exactly one ConsoleEdit `V` of the widget forest answers
`match_thread(T)`, `console_by_thread` called from thread `T` returns `V`,
whatever else the forest contains and wherever `V` sits in it. -/
theorem console_by_thread_unique (W : World) (T : Int) (V : Nat)
    (hV : V ∈ W.forest)
    (hce : (W.cls V).isConsoleEdit = true)
    (hmatch : W.match_thread V T = true)
    (huniq : ∀ p ∈ W.forest, (W.cls p).isConsoleEdit = true →
      W.match_thread p T = true → p = V) :
    console_by_thread W T = some V := by
  unfold console_by_thread
  rcases search_widget_spec W
      (fun p => if (W.cls p).isConsoleEdit then W.match_thread p T else false) with
    ⟨p, hp, hin, hm⟩ | ⟨_, hall⟩
  · rw [hp]
    by_cases hc : (W.cls p).isConsoleEdit = true
    · simp only [hc, if_true] at hm
      rw [huniq p hin hc hm]
    · simp [hc] at hm
  · have := hall V hV
    simp [hce, hmatch] at this

/-- C1 at the example world: thread 9 owns console 4, nested below a plain
widget, and gets it. -/
theorem console_by_thread_unique_witness :
    (4 ∈ exampleWorld.forest ∧ (exampleWorld.cls 4).isConsoleEdit = true ∧
      exampleWorld.match_thread 4 9 = true) ∧
    console_by_thread exampleWorld 9 = some 4 :=
  ⟨by decide,
   console_by_thread_unique exampleWorld 9 4 (by decide) (by decide) (by decide) (by decide)⟩

/-- C2: `console_by_thread` and `console_peek_first` return none exactly
when no widget of the forest satisfies their predicate, and otherwise a
widget of the forest that satisfies it; in particular `console_by_thread`
called from thread `A` never returns a console that does not answer
`match_thread(A)`. -/
theorem lookup_postcondition (W : World) (A : Int) :
    (console_by_thread W A = none ↔
      ∀ p ∈ W.forest, ¬((W.cls p).isConsoleEdit = true ∧ W.match_thread p A = true)) ∧
    (∀ v, console_by_thread W A = some v →
      v ∈ W.forest ∧ (W.cls v).isConsoleEdit = true ∧ W.match_thread v A = true) ∧
    (console_peek_first W = none ↔ ∀ p ∈ W.forest, (W.cls p).isConsoleEdit = false) ∧
    (∀ v, console_peek_first W = some v →
      v ∈ W.forest ∧ (W.cls v).isConsoleEdit = true) ∧
    (∀ v, W.match_thread v A = false → console_by_thread W A ≠ some v) := by
  have key : ∀ p, (if (W.cls p).isConsoleEdit then W.match_thread p A else false) = true ↔
      ((W.cls p).isConsoleEdit = true ∧ W.match_thread p A = true) := by
    intro p
    by_cases hc : (W.cls p).isConsoleEdit = true <;> simp [hc]
  have hsome : ∀ v, console_by_thread W A = some v →
      v ∈ W.forest ∧ (W.cls v).isConsoleEdit = true ∧ W.match_thread v A = true := by
    intro v hv
    unfold console_by_thread at hv
    rcases search_widget_spec W
        (fun p => if (W.cls p).isConsoleEdit then W.match_thread p A else false) with
      ⟨p, hp, hin, hm⟩ | ⟨hn, _⟩
    · rw [hp] at hv
      have e : p = v := Option.some.inj hv
      rw [← e]
      exact ⟨hin, (key p).1 hm⟩
    · rw [hn] at hv
      cases hv
  refine ⟨?_, hsome, ?_, ?_, ?_⟩
  · unfold console_by_thread
    rcases search_widget_spec W
        (fun p => if (W.cls p).isConsoleEdit then W.match_thread p A else false) with
      ⟨p, hp, hin, hm⟩ | ⟨hn, hall⟩
    · rw [hp]
      constructor
      · intro h
        cases h
      · intro h
        exact absurd ((key p).1 hm) (h p hin)
    · rw [hn]
      constructor
      · intro _ p hp hcontra
        have := hall p hp
        rw [(key p).2 hcontra] at this
        cases this
      · intro _
        rfl
  · unfold console_peek_first
    rcases search_widget_spec W (fun p => (W.cls p).isConsoleEdit) with
      ⟨p, hp, hin, hm⟩ | ⟨hn, hall⟩
    · rw [hp]
      constructor
      · intro h
        cases h
      · intro h
        have := h p hin
        rw [show (W.cls p).isConsoleEdit = true from hm] at this
        cases this
    · rw [hn]
      constructor
      · intro _ p hp
        exact hall p hp
      · intro _
        rfl
  · intro v hv
    unfold console_peek_first at hv
    rcases search_widget_spec W (fun p => (W.cls p).isConsoleEdit) with
      ⟨p, hp, hin, hm⟩ | ⟨hn, _⟩
    · rw [hp] at hv
      have e : p = v := Option.some.inj hv
      rw [← e]
      exact ⟨hin, hm⟩
    · rw [hn] at hv
      cases hv
  · intro v hv hcontra
    have := (hsome v hcontra).2.2
    rw [hv] at this
    cases this

/-- C3: when `console_by_thread` finds no console for the calling thread,
every predicate that acts on the caller's console returns `FALSE`, hands no
closure to the GUI thread and leaves the world (widgets, histories,
preferences, queue of closures) and the caller's bindings as they were,
whatever its arguments. -/
theorem no_console_fails (E : Env) (thid : Int) (W : World)
    (h : console_by_thread W thid = none) :
    (∀ A1 A2, window_title E thid A1 A2 W = ⟨.FALSE, W, Frame.initial [A1, A2]⟩) ∧
    (∀ A1, win_window_pos E thid A1 W = ⟨.FALSE, W, Frame.initial [A1]⟩) ∧
    (win_has_menu thid W = ⟨.FALSE, W, Frame.initial []⟩) ∧
    (∀ A1 A2, win_insert_menu E thid A1 A2 W = ⟨.FALSE, W, Frame.initial [A1, A2]⟩) ∧
    (∀ A1 A2 A3 A4, win_insert_menu_item E thid A1 A2 A3 A4 W =
      ⟨.FALSE, W, Frame.initial [A1, A2, A3, A4]⟩) ∧
    (tty_clear thid W = ⟨.FALSE, W, Frame.initial []⟩) ∧
    (∀ A1, rl_add_history E thid A1 W = ⟨.FALSE, W, Frame.initial [A1]⟩) ∧
    (∀ A1, rl_history thid A1 W = ⟨.FALSE, W, Frame.initial [A1]⟩) ∧
    (∀ A1 A2, tty_size thid A1 A2 W = ⟨.FALSE, W, Frame.initial [A1, A2]⟩) ∧
    (∀ A1 A2, win_message_box E thid A1 A2 W = ⟨.FALSE, W, Frame.initial [A1, A2]⟩) ∧
    (interrupt thid W = ⟨.FALSE, W, Frame.initial []⟩) ∧
    (∀ A1, console_settings E thid A1 W = ⟨.FALSE, W, Frame.initial [A1]⟩) ∧
    (∀ A1 A2 A3 A4, getOpenFileName E thid A1 A2 A3 A4 W =
      ⟨.FALSE, W, Frame.initial [A1, A2, A3, A4]⟩) ∧
    (∀ A1 A2 A3 A4, getSaveFileName E thid A1 A2 A3 A4 W =
      ⟨.FALSE, W, Frame.initial [A1, A2, A3, A4]⟩) ∧
    (select_font E thid W = ⟨.FALSE, W, Frame.initial []⟩) ∧
    (select_ANSI_term_colors E thid W = ⟨.FALSE, W, Frame.initial []⟩) ∧
    (quit_console thid W = ⟨.FALSE, W, Frame.initial []⟩) ∧
    (copy thid W = ⟨.FALSE, W, Frame.initial []⟩) ∧
    (paste thid W = ⟨.FALSE, W, Frame.initial []⟩) ∧
    (∀ A1, win_html_write E thid A1 W = ⟨.FALSE, W, Frame.initial [A1]⟩) := by
  refine ⟨?_, ?_, ?_, ?_, ?_, ?_, ?_, ?_, ?_, ?_, ?_, ?_, ?_, ?_, ?_, ?_, ?_, ?_, ?_, ?_⟩
  · intro A1 A2; simp only [window_title, h]
  · intro A1; simp only [win_window_pos, h]
  · simp only [win_has_menu, h]
  · intro A1 A2; simp only [win_insert_menu, h]
  · intro A1 A2 A3 A4; simp only [win_insert_menu_item, h]
  · simp only [tty_clear, h]
  · intro A1; simp only [rl_add_history, h]
  · intro A1; simp only [rl_history, h]
  · intro A1 A2; simp only [tty_size, h]
  · intro A1 A2; simp only [win_message_box, h]
  · simp only [interrupt, h]
  · intro A1; simp only [console_settings, h]
  · intro A1 A2 A3 A4; simp only [getOpenFileName, h]
  · intro A1 A2 A3 A4; simp only [getSaveFileName, h]
  · simp only [select_font, h]
  · simp only [select_ANSI_term_colors, h]
  · simp only [quit_console, h]
  · simp only [copy, h]
  · simp only [paste, h]
  · intro A1; simp only [win_html_write, h]

/-- C3 at the example world: thread 3 owns no console there, and
`win_insert_menu` called from it fails without handing over a closure. -/
theorem no_console_fails_witness :
    console_by_thread exampleWorld 3 = none ∧
    (win_insert_menu exampleEnv 3 (.atom "Tools") (.atom "-") exampleWorld).world.posted = [] ∧
    (tty_clear 3 exampleWorld).world.posted = [] :=
  ⟨by decide,
   by rw [(no_console_fails exampleEnv 3 exampleWorld (by decide)).2.2.2.1]; rfl,
   by rw [(no_console_fails exampleEnv 3 exampleWorld (by decide)).2.2.2.2.2.1]; rfl⟩

/-- C4: the closures of `tty_clear`, the two file dialogs, `select_font`,
`select_ANSI_term_colors` and `win_html_write` call `go()` exactly once
on every input. The closure of `win_message_box` calls it once unless an
image is asked for and fails to load: then it sets `err` to
`icon file ... not found` and returns without calling `go()`, so that
`win_message_box(hello, [image('missing.png')])` called by the owner of a
console never gets past `s.stop()` and raises nothing. -/
theorem closures_go_count :
    (∀ c W, (closure_tty_clear c W).go = 1) ∧
    (∀ E W, (closure_getFileName E W).go = 1) ∧
    (∀ E c W, (closure_select_font E c W).go = 1) ∧
    (∀ E c W, (closure_select_ANSI_term_colors E c W).go = 1) ∧
    (∀ c html W, (closure_win_html_write c html W).go = 1) ∧
    (∀ E Text Title Image scale min_width W,
      (closure_win_message_box E Text Title Image scale min_width W).go =
        if Image ≠ "" ∧ E.imageLoads Image = false then 0 else 1) ∧
    (closure_win_message_box exampleEnv "hello" "swipl-win" "missing.png" 0 0 exampleWorld).go
      = 0 ∧
    (closure_win_message_box exampleEnv "hello" "swipl-win" "missing.png" 0 0
      exampleWorld).out.err = "icon file missing.png not found" ∧
    console_by_thread exampleWorld 7 = some 2 ∧
    (win_message_box exampleEnv 7 (.atom "hello")
      (PlTerm.list [.compound "image" [.atom "missing.png"]]) exampleWorld).status
      = Status.blocked := by
  refine ⟨?_, ?_, ?_, ?_, ?_, ?_, ?_, ?_, ?_, ?_⟩
  · intro c W; rfl
  · intro E W; rfl
  · intro E c W
    unfold closure_select_font
    split <;> rfl
  · intro E c W
    unfold closure_select_ANSI_term_colors
    split <;> rfl
  · intro c html W; rfl
  · intro E Text Title Image scale min_width W
    unfold closure_win_message_box
    split <;> rfl
  · decide
  · decide
  · decide
  · rfl

/-- C5: whenever `win_open_console` finds a console, the stream table gains
exactly three streams, all with encoding UTF-8, all over the one new
`Swipl_IO` handle and the one function table `rlc_functions`: the first an
input stream with line buffering, the second an output stream with line
buffering, the third an output stream with no buffering. -/
theorem win_open_console_stream_setup (E : Env) (A1 A2 A3 A4 A5 : PlTerm) (W : World)
    (ce : Nat) (h : console_peek_first W = some ce) :
    ∃ s_in s_out s_err : IOSTREAM,
      (win_open_console E A1 A2 A3 A4 A5 W).world.streams = W.streams ++ [s_in, s_out, s_err] ∧
      (s_in.encoding = .ENC_UTF8 ∧ s_out.encoding = .ENC_UTF8 ∧ s_err.encoding = .ENC_UTF8) ∧
      (SIOFlag.SIO_INPUT ∈ s_in.flags ∧ SIOFlag.SIO_LBUF ∈ s_in.flags ∧ SIOFlag.SIO_OUTPUT ∉ s_in.flags ∧
        SIOFlag.SIO_NBUF ∉ s_in.flags ∧ SIOFlag.SIO_FBUF ∉ s_in.flags) ∧
      (SIOFlag.SIO_OUTPUT ∈ s_out.flags ∧ SIOFlag.SIO_LBUF ∈ s_out.flags ∧ SIOFlag.SIO_INPUT ∉ s_out.flags ∧
        SIOFlag.SIO_NBUF ∉ s_out.flags ∧ SIOFlag.SIO_FBUF ∉ s_out.flags) ∧
      (SIOFlag.SIO_OUTPUT ∈ s_err.flags ∧ SIOFlag.SIO_NBUF ∈ s_err.flags ∧ SIOFlag.SIO_INPUT ∉ s_err.flags ∧
        SIOFlag.SIO_LBUF ∉ s_err.flags ∧ SIOFlag.SIO_FBUF ∉ s_err.flags) ∧
      (s_in.handle = W.heap ∧ s_out.handle = W.heap ∧ s_err.handle = W.heap) ∧
      (s_in.functions = rlc_functions ∧ s_out.functions = rlc_functions ∧
        s_err.functions = rlc_functions) := by
  obtain ⟨closed, hs, _⟩ := win_open_console_streams E A1 A2 A3 A4 A5 W ce h
  refine ⟨_, _, _, hs, ?_, ?_, ?_, ?_, ?_, ?_⟩ <;> simp [STREAM_COMMON]

/-- C5 at the example world, where the search meets console 4 first and whose stream
table is empty. -/
theorem win_open_console_stream_setup_witness :
    console_peek_first exampleWorld = some 4 ∧
    ∃ s_in s_out s_err : IOSTREAM,
      (win_open_console exampleEnv (.atom "t") (.var 0) (.var 1) (.var 2) .nil
        exampleWorld).world.streams = exampleWorld.streams ++ [s_in, s_out, s_err] ∧
      (s_in.encoding = .ENC_UTF8 ∧ s_out.encoding = .ENC_UTF8 ∧ s_err.encoding = .ENC_UTF8) ∧
      (SIOFlag.SIO_INPUT ∈ s_in.flags ∧ SIOFlag.SIO_LBUF ∈ s_in.flags ∧ SIOFlag.SIO_OUTPUT ∉ s_in.flags ∧
        SIOFlag.SIO_NBUF ∉ s_in.flags ∧ SIOFlag.SIO_FBUF ∉ s_in.flags) ∧
      (SIOFlag.SIO_OUTPUT ∈ s_out.flags ∧ SIOFlag.SIO_LBUF ∈ s_out.flags ∧ SIOFlag.SIO_INPUT ∉ s_out.flags ∧
        SIOFlag.SIO_NBUF ∉ s_out.flags ∧ SIOFlag.SIO_FBUF ∉ s_out.flags) ∧
      (SIOFlag.SIO_OUTPUT ∈ s_err.flags ∧ SIOFlag.SIO_NBUF ∈ s_err.flags ∧ SIOFlag.SIO_INPUT ∉ s_err.flags ∧
        SIOFlag.SIO_LBUF ∉ s_err.flags ∧ SIOFlag.SIO_FBUF ∉ s_err.flags) ∧
      (s_in.handle = exampleWorld.heap ∧ s_out.handle = exampleWorld.heap ∧
        s_err.handle = exampleWorld.heap) ∧
      (s_in.functions = rlc_functions ∧ s_out.functions = rlc_functions ∧
        s_err.functions = rlc_functions) :=
  ⟨by decide,
   win_open_console_stream_setup exampleEnv (.atom "t") (.var 0) (.var 1) (.var 2) .nil
     exampleWorld 4 (by decide)⟩

/-- C6: `console_settings` drops what `unify` reports. Called by thread 7,
the owner of console 2, with the option `nosuchproperty(1)` it returns
`TRUE` although `unify` answers `property nosuchproperty: not found`; with
the option `maximumBlockCount(many)`, an atom for an integer property, it
returns `TRUE` although `unify` answers
`property maximumBlockCount: type mismatch`; neither call changes a
property. -/
theorem console_settings_drops_message :
    console_by_thread exampleWorld 7 = some 2 ∧
    Except.map (fun r => r.1) (unify_by_name exampleEnv "nosuchproperty" 2 (.integer 1)
      exampleWorld (Frame.initial [])) = .ok "property nosuchproperty: not found" ∧
    (console_settings exampleEnv 7 (PlTerm.list [.compound "nosuchproperty" [.integer 1]])
      exampleWorld).status = .TRUE ∧
    (console_settings exampleEnv 7 (PlTerm.list [.compound "nosuchproperty" [.integer 1]])
      exampleWorld).world.properties 2 = exampleProperties ∧
    Except.map (fun r => r.1) (unify_by_name exampleEnv "maximumBlockCount" 2 (.atom "many")
      exampleWorld (Frame.initial [])) = .ok "property maximumBlockCount: type mismatch" ∧
    (console_settings exampleEnv 7 (PlTerm.list [.compound "maximumBlockCount" [.atom "many"]])
      exampleWorld).status = .TRUE ∧
    (console_settings exampleEnv 7 (PlTerm.list [.compound "maximumBlockCount" [.atom "many"]])
      exampleWorld).world.properties 2 = exampleProperties := by
  refine ⟨by decide, ?_, ?_, ?_, ?_, ?_, ?_⟩ <;> rfl

/-- C8 as stated fails, for thread 7, which owns console 2 with an empty
history. After the one call `rl_add_history('')`, which succeeds,
`'$rl_history'(X)` succeeds with `X = []`, not with the list `['']` of the
lines given. After the one call with a line that has a NUL between `ab`
and `cd`, `'$rl_history'(X)` gives `[ab]`. After the one call
`rl_add_history(ls)`, the call `'$rl_history'([zzz])` succeeds although
`[zzz]` is not the list `[ls]`. -/
theorem rl_history_skips_empty_line :
    console_by_thread exampleWorld 7 = some 2 ∧
    exampleWorld.history 2 = [] ∧
    (rl_add_history exampleEnv 7 (.atom "") exampleWorld).status = .TRUE ∧
    (rl_history 7 (.var 0)
      (rl_add_history_calls exampleEnv 7 [.atom ""] exampleWorld)).status = .TRUE ∧
    (rl_history 7 (.var 0)
      (rl_add_history_calls exampleEnv 7 [.atom ""] exampleWorld)).frame.value (.var 0) =
        PlTerm.list [] ∧
    ¬((rl_history 7 (.var 0)
      (rl_add_history_calls exampleEnv 7 [.atom ""] exampleWorld)).frame.value (.var 0) =
        PlTerm.list ([PlTerm.atom ""].map (fun a => .atom (lineText exampleEnv a)))) ∧
    lineText exampleEnv (.atom "ab\x00cd") = "ab\x00cd" ∧
    (rl_add_history exampleEnv 7 (.atom "ab\x00cd") exampleWorld).status = .TRUE ∧
    (rl_history 7 (.var 0)
      (rl_add_history_calls exampleEnv 7 [.atom "ab\x00cd"] exampleWorld)).frame.value
        (.var 0) = PlTerm.list [.atom "ab"] ∧
    (rl_add_history_calls exampleEnv 7 [.atom "ls"] exampleWorld).history 2 = ["ls"] ∧
    (rl_history 7 (PlTerm.list [.atom "zzz"])
      (rl_add_history_calls exampleEnv 7 [.atom "ls"] exampleWorld)).status = .TRUE ∧
    (rl_history 7 (PlTerm.list [.atom "zzz"])
      (rl_add_history_calls exampleEnv 7 [.atom "ls"] exampleWorld)).frame.value
        (PlTerm.list [.atom "zzz"]) = PlTerm.list [.atom "zzz"] := by
  refine ⟨by decide, by decide, rfl, rfl, rfl, ?_, by decide, rfl, rfl, by decide, rfl, rfl⟩
  intro h
  have h2 : PlTerm.list [] = PlTerm.list [PlTerm.atom ""] := h
  simp [PlTerm.list, PlTerm.listWithTail] at h2

/-- C8 as amended: for every sequence of `rl_add_history` calls made by the
thread that owns a console whose history is empty, every call succeeds, and
a following `'$rl_history'(X)` with `X` unbound succeeds and binds `X` to
the closed list of the lines those calls were given, each cut in front of
its first NUL character and left out when nothing remains, each once, in
call order; a call given the empty line, or a line that begins with NUL,
adds nothing. -/
theorem rl_history_returns_lines (E : Env) (thid : Int) (W : World) (c : Nat)
    (lines : List PlTerm) (x : Nat)
    (hc : console_by_thread W thid = some c) (hempty : W.history c = []) :
    (∀ (a : PlTerm) (W1 : World), console_by_thread W1 thid = some c →
      (rl_add_history E thid a W1).status = .TRUE) ∧
    (rl_history thid (.var x) (rl_add_history_calls E thid lines W)).status = .TRUE ∧
    (rl_history thid (.var x) (rl_add_history_calls E thid lines W)).frame.value (.var x) =
      PlTerm.list
        (((lines.map (historyLine E)).filter (fun l => decide (l ≠ ""))).map PlTerm.atom) := by
  obtain ⟨hc2, hh⟩ := rl_add_history_calls_history E thid c lines W hc
  rw [hempty, List.nil_append] at hh
  have hnew : PlTail.new (Frame.initial [.var x]) (.var x) = .ok ⟨.var x⟩ := by
    simp [PlTail.new, Frame.walk, Frame.deref, Frame.lookup, Frame.initial]
  obtain ⟨new, hb, hlen, _, hholds⟩ := rl_history_loop_holdsList
    ((lines.map (historyLine E)).filter (fun l => decide (l ≠ ""))) (Frame.initial [.var x]) x
    (by simp [Frame.initial, PlTerm.varBoundList, PlTerm.varBound])
    (by simp [Frame.initial])
  refine ⟨?_, ?_, ?_⟩
  · intro a W1 h1
    simp only [rl_add_history, h1]
    split <;> rfl
  · simp only [rl_history, hc2, hnew]
  · simp only [rl_history, hc2, hnew, history_lines, hh, Frame.value]
    apply Frame.resolve_of_holdsList _ _ _ _ hholds
    rw [hb, List.length_append, hlen]
    omega

/-- C8 as amended, at the example world: thread 7 adds `ls`, the empty
line, a line with a NUL after `pwd`, and a line that begins with NUL, and
gets `[ls, pwd]`. -/
theorem rl_history_returns_lines_witness :
    (console_by_thread exampleWorld 7 = some 2 ∧ exampleWorld.history 2 = []) ∧
    (rl_history 7 (.var 0) (rl_add_history_calls exampleEnv 7
      [.atom "ls", .atom "", .atom "pwd\x00 -L", .atom "\x00cd"] exampleWorld)).frame.value
        (.var 0) =
      PlTerm.list ((([PlTerm.atom "ls", .atom "", .atom "pwd\x00 -L", .atom "\x00cd"].map
        (historyLine exampleEnv)).filter (fun l => decide (l ≠ ""))).map PlTerm.atom) ∧
    PlTerm.list ((([PlTerm.atom "ls", .atom "", .atom "pwd\x00 -L", .atom "\x00cd"].map
        (historyLine exampleEnv)).filter (fun l => decide (l ≠ ""))).map PlTerm.atom) =
      PlTerm.list [.atom "ls", .atom "pwd"] :=
  ⟨⟨by decide, by decide⟩,
   (rl_history_returns_lines exampleEnv 7 exampleWorld 2
     [.atom "ls", .atom "", .atom "pwd\x00 -L", .atom "\x00cd"] 0
     (by decide) (by decide)).2.2,
   rfl⟩

/-- C9: when `win_open_console` finds a console, the three streams it made
end up closed together or open together: if the three bindings of `In`,
`Out`, `Err` (made in this order, each on the bindings left by the one
before) all succeed, the predicate succeeds and none of the three streams
is closed; if one of them fails, the predicate fails and all three are
closed. -/
theorem win_open_console_closes_together (E : Env) (A1 A2 A3 A4 A5 : PlTerm) (W : World)
    (ce : Nat) (h : console_peek_first W = some ce) :
    ∃ s_in s_out s_err : IOSTREAM,
      (win_open_console E A1 A2 A3 A4 A5 W).world.streams = W.streams ++ [s_in, s_out, s_err] ∧
      ((win_open_console E A1 A2 A3 A4 A5 W).status = .TRUE ∧
          (s_in.closed = false ∧ s_out.closed = false ∧ s_err.closed = false) ∧
          ((Frame.initial [A1, A2, A3, A4, A5]).unifyAtomic A2
            (.stream W.streams.length)).1 = true ∧
          (((Frame.initial [A1, A2, A3, A4, A5]).unifyAtomic A2
            (.stream W.streams.length)).2.unifyAtomic A3
              (.stream (W.streams.length + 1))).1 = true ∧
          ((((Frame.initial [A1, A2, A3, A4, A5]).unifyAtomic A2
            (.stream W.streams.length)).2.unifyAtomic A3
              (.stream (W.streams.length + 1))).2.unifyAtomic A4
                (.stream (W.streams.length + 2))).1 = true
        ∨
       (win_open_console E A1 A2 A3 A4 A5 W).status = .FALSE ∧
          (s_in.closed = true ∧ s_out.closed = true ∧ s_err.closed = true) ∧
          ¬(((Frame.initial [A1, A2, A3, A4, A5]).unifyAtomic A2
            (.stream W.streams.length)).1 = true ∧
          (((Frame.initial [A1, A2, A3, A4, A5]).unifyAtomic A2
            (.stream W.streams.length)).2.unifyAtomic A3
              (.stream (W.streams.length + 1))).1 = true ∧
          ((((Frame.initial [A1, A2, A3, A4, A5]).unifyAtomic A2
            (.stream W.streams.length)).2.unifyAtomic A3
              (.stream (W.streams.length + 1))).2.unifyAtomic A4
                (.stream (W.streams.length + 2))).1 = true)) := by
  obtain ⟨closed, hs, hc⟩ := win_open_console_streams E A1 A2 A3 A4 A5 W ce h
  refine ⟨_, _, _, hs, ?_⟩
  rcases hc with ⟨hst, hcl, hb⟩ | ⟨hst, hcl, hb⟩
  · exact Or.inl ⟨hst, ⟨hcl, hcl, hcl⟩, hb⟩
  · exact Or.inr ⟨hst, ⟨hcl, hcl, hcl⟩, hb⟩

/-- C9 at the example world with `Out` and `Err` the same variable: the
second binding succeeds, the third fails, the call fails and the three
streams are closed. -/
theorem win_open_console_closes_together_witness :
    console_peek_first exampleWorld = some 4 ∧
    (win_open_console exampleEnv (.atom "t") (.var 0) (.var 1) (.var 1) .nil
      exampleWorld).world.streams.map (fun s => s.closed) = [true, true, true] ∧
    ∃ s_in s_out s_err : IOSTREAM,
      (win_open_console exampleEnv (.atom "t") (.var 0) (.var 1) (.var 1) .nil
        exampleWorld).world.streams = exampleWorld.streams ++ [s_in, s_out, s_err] :=
  ⟨by decide, by decide,
   (win_open_console_closes_together exampleEnv (.atom "t") (.var 0) (.var 1) (.var 1) .nil
     exampleWorld 4 (by decide)).imp fun _ h1 => h1.imp fun _ h2 => h2.imp fun _ h3 => h3.1⟩

/-- C11: `win_preference_keys(+Group, -Keys)` does not do what its head
says. With the keys `font` and `wrap` stored in the group `console` and
the key `geometry` outside any group, the call
`win_preference_keys(console, Keys)` throws a type error on `console`,
expected to be a list, and leaves `Keys` unbound; the call
`win_preference_keys(G, Keys)` succeeds, binds `G` to `[geometry]`, the
keys outside any group, and again leaves `Keys` unbound.
`win_preference_groups(Gs)` binds its argument to `[console]`. -/
theorem win_preference_keys_ignores_group :
    examplePreferences.childKeys ["console"] = ["font", "wrap"] ∧
    examplePreferences.childKeys [] = ["geometry"] ∧
    examplePreferences.childGroups [] = ["console"] ∧
    (win_preference_keys (.atom "console") (.var 0) exampleWorldPrefs).status =
      .exception (.type_error "list" (.atom "console")) ∧
    (win_preference_keys (.atom "console") (.var 0) exampleWorldPrefs).frame.value (.var 0) =
      .var 0 ∧
    (win_preference_keys (.var 1) (.var 0) exampleWorldPrefs).status = .TRUE ∧
    (win_preference_keys (.var 1) (.var 0) exampleWorldPrefs).frame.value (.var 1) =
      PlTerm.list [.atom "geometry"] ∧
    (win_preference_keys (.var 1) (.var 0) exampleWorldPrefs).frame.value (.var 0) = .var 0 ∧
    (win_preference_groups (.var 0) exampleWorldPrefs).status = .TRUE ∧
    (win_preference_groups (.var 0) exampleWorldPrefs).frame.value (.var 0) =
      PlTerm.list [.atom "console"] := by
  refine ⟨by decide, by decide, by decide, rfl, rfl, rfl, rfl, rfl, rfl, rfl⟩

/-- C14 as stated fails where a widget is both a top-level widget and a
child: with the dialog 3 in front of its parent 1 among the top-level
widgets, the lookup of a console for thread 3, which owns none, tests 3,
then 1, then 2, then 3 again: 3 is tested twice, the first time before its
parent 1. -/
theorem search_widget_tests_twice :
    exampleWorldDialog.parentWidget 3 = some 1 ∧
    exampleWorldDialog.forest = [3, 1, 3, 2] ∧
    console_by_thread exampleWorldDialog 3 = none ∧
    search_widget_log exampleWorldDialog
      (fun p => if (exampleWorldDialog.cls p).isConsoleEdit
        then exampleWorldDialog.match_thread p 3 else false) = ([3, 1, 2, 3], none) ∧
    List.count 3 [3, 1, 2, 3] = 2 ∧
    ¬ ([3, 1, 2, 3] : List Nat).Nodup := by
  refine ⟨by decide, by decide, by decide, by decide, by decide, by decide⟩

/-- C14 as amended: `search_widget` terminates on every forest and every
predicate, and calls the predicate on the widgets in this order.

* Every stack loop finishes within the turns it is given, and the logging
  loop returns what `search_widget` returns.
* The widgets tested are the widgets of `visitOrder` up to and including
  the first for which the predicate holds, which is the result; when it
  holds for none, all of `visitOrder` is tested and the result is none.
* `visitOrder` lists the widgets of the forest, each place once, so no
  widget is tested more often than it stands in the forest; when no
  widget stands twice in the forest, none is tested twice.
* In `visitOrder` the widgets of an earlier top-level widget come before
  those of a later one, and every place of a widget in the forest is
  followed directly by the widgets below it.
* When no widget stands twice in the forest, a widget that is tested and
  stands below another widget is tested after that widget: a parent is
  tested before any of its descendants. -/
theorem search_widget_order (W : World) (matchFn : Nat → Bool) :
    (∀ widget ∈ W.topLevelWidgets,
      (search_stack W.cls matchFn (widget.size + 1) [widget]).isSome = true ∧
      (search_stack_log W.cls matchFn (widget.size + 1) [widget]).isSome = true) ∧
    (search_widget_log W matchFn).2 = search_widget W matchFn ∧
    (search_widget_log W matchFn).1 = takeThrough matchFn W.visitOrder ∧
    (search_widget_log W matchFn).1 <+: W.visitOrder ∧
    search_widget W matchFn = W.visitOrder.find? matchFn ∧
    (∀ q, search_widget W matchFn = some q →
      ∃ pre, (search_widget_log W matchFn).1 = pre ++ [q] ∧
        (∀ x ∈ pre, matchFn x = false) ∧ matchFn q = true) ∧
    (search_widget W matchFn = none →
      (search_widget_log W matchFn).1 = W.visitOrder ∧
        ∀ x ∈ W.visitOrder, matchFn x = false) ∧
    W.visitOrder.Perm W.forest ∧
    (∀ p, (search_widget_log W matchFn).1.count p ≤ W.forest.count p) ∧
    (W.forest.Nodup → (search_widget_log W matchFn).1.Nodup) ∧
    (∀ pre w post, W.topLevelWidgets = pre ++ w :: post →
      W.visitOrder = QObject.visitRoots W.cls pre ++
        (QObject.visit W.cls w ++ QObject.visitRoots W.cls post)) ∧
    W.forestTrees.map QObject.ptr = W.forest ∧
    (∀ t ∈ W.forestTrees,
      ∃ A B, W.visitOrder = A ++ (t.ptr :: QObject.visitChildren W.cls t.children) ++ B ∧
        (QObject.visitChildren W.cls t.children).Perm
          (QObject.widgetsList W.cls t.children)) ∧
    (W.forest.Nodup → ∀ t ∈ W.forestTrees, ∀ d ∈ QObject.widgetsList W.cls t.children,
      d ∈ (search_widget_log W matchFn).1 →
      ∃ pre post, (search_widget_log W matchFn).1 = pre ++ t.ptr :: post ∧
        d ∈ post ∧ d ∉ pre) := by
  have hspec := search_from_log_spec W.cls matchFn W.topLevelWidgets
  have hres := search_from_log_result W.cls matchFn W.topLevelWidgets
  have hlog1 : (search_widget_log W matchFn).1 = takeThrough matchFn W.visitOrder := by
    simp only [search_widget_log, hspec, World.visitOrder]
  have hfind : search_widget W matchFn = W.visitOrder.find? matchFn := by
    simp only [search_widget, ← hres, hspec, World.visitOrder]
  have hpre : (search_widget_log W matchFn).1 <+: W.visitOrder := by
    rw [hlog1]
    exact takeThrough_prefix matchFn _
  have hperm : W.visitOrder.Perm W.forest := QObject.visitRoots_perm W.cls W.topLevelWidgets
  refine ⟨?_, hres, hlog1, hpre, hfind, ?_, ?_, hperm, ?_, ?_, ?_, ?_, ?_, ?_⟩
  · intro widget _
    have h : QObject.sizeList [widget] < widget.size + 1 := by simp [QObject.sizeList]
    refine ⟨search_stack_total W.cls matchFn widget, ?_⟩
    rw [search_stack_log_spec W.cls matchFn _ _ h]
    rfl
  · intro q hq
    rw [hlog1]
    exact takeThrough_of_some matchFn _ q (by rw [← hfind]; exact hq)
  · intro hq
    rw [hfind] at hq
    refine ⟨by rw [hlog1]; exact takeThrough_of_none matchFn _ hq, ?_⟩
    intro x hx
    have := List.find?_eq_none.1 hq x hx
    simpa using this
  · intro p
    rw [← hperm.count_eq p]
    exact hpre.sublist.count_le p
  · intro hnd
    exact (hperm.nodup_iff.2 hnd).sublist hpre.sublist
  · intro pre w post htops
    simp only [World.visitOrder, htops, QObject.visitRoots_append, QObject.visitRoots]
  · exact QObject.subtreesOfRoots_ptr W.cls W.topLevelWidgets
  · intro t ht
    obtain ⟨A, B, h⟩ := QObject.visitRoots_subtree W.cls W.topLevelWidgets t ht
    refine ⟨A, B, ?_, ?_⟩
    · rw [← QObject.visit_eq]
      exact h
    · cases t with
      | mk p cs => exact QObject.visitChildren_perm W.cls cs
  · intro hnd t ht d hd hdt
    obtain ⟨A, B, h⟩ := QObject.visitRoots_subtree W.cls W.topLevelWidgets t ht
    rw [QObject.visit_eq] at h
    have hdD : d ∈ QObject.visitChildren W.cls t.children := by
      cases t with
      | mk p cs => exact (QObject.visitChildren_perm W.cls cs).mem_iff.2 hd
    obtain ⟨post, h1, h2, h3⟩ := prefix_parent_first W.visitOrder _ A _ B t.ptr d
      (hperm.nodup_iff.2 hnd) hpre h hdD hdt
    exact ⟨A, post, h1, h2, h3⟩

/-- C14 as amended, at the example world, where no widget stands twice:
the lookup of a console for thread 7 tests 1, 3, 4, 2 and returns 2; console
4, which stands below widget 3, is tested after 3, and 3 after 1. -/
theorem search_widget_order_witness :
    exampleWorld.forest.Nodup ∧
    search_widget_log exampleWorld
      (fun p => if (exampleWorld.cls p).isConsoleEdit
        then exampleWorld.match_thread p 7 else false) = ([1, 3, 4, 2], some 2) ∧
    (search_widget_log exampleWorld
      (fun p => if (exampleWorld.cls p).isConsoleEdit
        then exampleWorld.match_thread p 7 else false)).1.Nodup ∧
    (∃ pre post, (search_widget_log exampleWorld
      (fun p => if (exampleWorld.cls p).isConsoleEdit
        then exampleWorld.match_thread p 7 else false)).1 = pre ++ 3 :: post ∧
      4 ∈ post ∧ 4 ∉ pre) :=
  ⟨by decide, by decide,
   (search_widget_order exampleWorld
      (fun p => if (exampleWorld.cls p).isConsoleEdit
        then exampleWorld.match_thread p 7 else false)).2.2.2.2.2.2.2.2.2.1 (by decide),
   (search_widget_order exampleWorld
      (fun p => if (exampleWorld.cls p).isConsoleEdit
        then exampleWorld.match_thread p 7 else false)).2.2.2.2.2.2.2.2.2.2.2.2.2 (by decide)
      (QObject.mk 3 [QObject.mk 4 []]) (by simp [World.forestTrees, QObject.subtreesOfRoots,
        QObject.subtrees, QObject.subtreesList, exampleWorld, QObject.ptr, QClass.isWidgetType])
      4 (by decide) (by decide)⟩

end pqConsole
